import Mathlib

/-!
Verification of the plant-identification app core against its specification.

The development shallow-embeds the three relevant source units:
the serverless Boundary Handler (English variant), the proxied-mode
Request Dispatcher with its Image Encoder helper, and the direct-mode
Response Normalizer.  The JavaScript runtime pieces the code leans on,
JSON.parse and JSON.stringify, are modelled executably below: a JSON
value type with exact decimal numbers, a total fuel-based recursive
descent reader, and a writer.  Numbers are kept as mantissa and decimal
exponent instead of IEEE floats; the writer therefore prints numbers in
mantissa-exponent form, a canonicalization difference from V8 that no
claim observes.  A string escape \uXXXX denoting a lone surrogate
decodes to the null character, as Lean characters are unicode scalars.
-/

/-! ## JSON values -/

/-- An exact JSON number: value is mant times ten to exp10. -/
structure JNum where
  mant : Int
  exp10 : Int
deriving Repr, DecidableEq

/-- A JavaScript JSON value, as produced by JSON.parse. -/
inductive JVal where
  | null
  | bool (b : Bool)
  | num (n : JNum)
  | str (s : String)
  | arr (items : List JVal)
  | obj (fields : List (String × JVal))
deriving Inhabited

/-! ## Character classes and basic scanning -/

/-- Whitespace accepted by JSON.parse between tokens: space, tab, CR, LF. -/
def jsonWs (c : Char) : Bool :=
  c == ' ' || c == '\n' || c == '\r' || c == '\t'

/-- Whitespace in the sense of the JavaScript regexp class backslash-s and of
String.prototype.trim, restricted to the code points the model covers. -/
def jsWs (c : Char) : Bool :=
  c == ' ' || c == '\n' || c == '\r' || c == '\t' || c == '\x0b' ||
  c == '\x0c' || c == ' ' || c == '﻿'

/-- A word character in the sense of the JavaScript regexp class backslash-w. -/
def wordChar (c : Char) : Bool :=
  c.isAlphanum || c == '_'

/-- Drop leading JSON whitespace. -/
def skipSpaces (l : List Char) : List Char := l.dropWhile jsonWs

/-- Split a character list at a digit boundary: the longest digit prefix and
the remainder. -/
def digitSpan (l : List Char) : List Char × List Char :=
  (l.takeWhile Char.isDigit, l.dropWhile Char.isDigit)

/-- Numeric value of a decimal digit run (most significant first). -/
def digitsVal (l : List Char) : Nat :=
  l.foldl (fun a c => a * 10 + (c.toNat - 48)) 0

/-- Value of one hexadecimal digit, if it is one. -/
def hexDigitVal (c : Char) : Option Nat :=
  if '0' ≤ c ∧ c ≤ '9' then some (c.toNat - '0'.toNat)
  else if 'a' ≤ c ∧ c ≤ 'f' then some (10 + c.toNat - 'a'.toNat)
  else if 'A' ≤ c ∧ c ≤ 'F' then some (10 + c.toNat - 'A'.toNat)
  else none

/-! ## Parse failures

JSON.parse throws a SyntaxError; the model carries a structured failure and
renders it to the exception message observed by the catch blocks. -/

/-- A JSON parse failure. -/
inductive PErr where
  | endOfInput
  | unexpected (c : Char)
  | badEscape (c : Char)
  | fuelOut
deriving Repr, DecidableEq

/-- The message of the SyntaxError thrown for a given parse failure. -/
def PErr.render : PErr → String
  | .endOfInput => "Unexpected end of JSON input"
  | .unexpected c => "Unexpected token " ++ String.mk [c] ++ " in JSON"
  | .badEscape c => "Bad escaped character " ++ String.mk [c] ++ " in JSON"
  | .fuelOut => "Maximum call stack size exceeded"

/-! ## The reader (model of JSON.parse) -/

mutual

/-- Read the body of a JSON string literal after its opening quote.
Structural on the input; acc holds the decoded characters reversed. -/
def lexString (acc : List Char) : List Char → Except PErr (String × List Char)
  | [] => .error .endOfInput
  | c :: rest =>
    if c = '"' then .ok (String.mk acc.reverse, rest)
    else if c = '\\' then lexEscape acc rest
    else if c.toNat < 32 then .error (.unexpected c)
    else lexString (c :: acc) rest

/-- Read one escape sequence after a backslash. -/
def lexEscape (acc : List Char) : List Char → Except PErr (String × List Char)
  | [] => .error .endOfInput
  | e :: rest2 =>
    if e = '"' ∨ e = '\\' ∨ e = '/' then lexString (e :: acc) rest2
    else if e = 'n' then lexString ('\n' :: acc) rest2
    else if e = 't' then lexString ('\t' :: acc) rest2
    else if e = 'r' then lexString ('\r' :: acc) rest2
    else if e = 'b' then lexString ('\x08' :: acc) rest2
    else if e = 'f' then lexString ('\x0c' :: acc) rest2
    else if e = 'u' then lexHex4 acc rest2
    else .error (.badEscape e)

/-- Read the four hex digits of a unicode escape. -/
def lexHex4 (acc : List Char) : List Char → Except PErr (String × List Char)
  | h1 :: h2 :: h3 :: h4 :: rest3 =>
    (match hexDigitVal h1, hexDigitVal h2, hexDigitVal h3, hexDigitVal h4 with
     | some a, some b, some cv, some d =>
       lexString (Char.ofNat (((a * 16 + b) * 16 + cv) * 16 + d) :: acc) rest3
     | _, _, _, _ => .error (.badEscape 'u'))
  | _ => .error .endOfInput

end

/-- Read an optional fraction part: a dot followed by digits yields the
fraction digits; a dot with no digit after it is left in place, so the stray
character surfaces as a failure in the surrounding context, as in V8. -/
def lexFrac : List Char → List Char × List Char
  | '.' :: r =>
    (match digitSpan r with
     | ([], _) => ([], '.' :: r)
     | (ds, r2) => (ds, r2))
  | l => ([], l)

/-- Read an optional exponent part: an exponent marker with an optional sign
and digits yields the exponent value; a marker with no digits is left in
place. -/
def lexExp : List Char → Int × List Char
  | e :: r =>
    if e = 'e' ∨ e = 'E' then
      match r with
      | s :: r2 =>
        if s = '+' then
          (match digitSpan r2 with
           | ([], _) => (0, e :: r)
           | (ds, r3) => ((digitsVal ds : Int), r3))
        else if s = '-' then
          (match digitSpan r2 with
           | ([], _) => (0, e :: r)
           | (ds, r3) => (-(digitsVal ds : Int), r3))
        else
          (match digitSpan (s :: r2) with
           | ([], _) => (0, e :: r)
           | (ds, r3) => ((digitsVal ds : Int), r3))
      | [] => (0, e :: r)
    else (0, e :: r)
  | [] => (0, [])

/-- Read the digits of a number after the optional sign: integer part,
optional fraction, optional exponent. -/
def lexNumTail (sign : Int) (l1 : List Char) : Except PErr (JNum × List Char) :=
  match digitSpan l1 with
  | ([], _) => .error (match l1 with | [] => .endOfInput | c :: _ => .unexpected c)
  | (intDs, l2) =>
    match lexFrac l2 with
    | (fracDs, l3) =>
      match lexExp l3 with
      | (expVal, l4) =>
        .ok (⟨sign * (digitsVal (intDs ++ fracDs) : Int),
              expVal - (fracDs.length : Int)⟩, l4)

/-- Read a JSON number starting at the current character, returning its exact
decimal value and the remainder. -/
def lexNumber (l : List Char) : Except PErr (JNum × List Char) :=
  match l with
  | '-' :: r => lexNumTail (-1) r
  | _ => lexNumTail 1 l

/-- Fold parsed object members into a JavaScript object: a repeated key keeps
its first position but takes the later value, as in V8. -/
def putField : List (String × JVal) → String → JVal → List (String × JVal)
  | [], k, v => [(k, v)]
  | (k0, v0) :: tl, k, v =>
    if k0 = k then (k, v) :: tl else (k0, v0) :: putField tl k v

/-- Collapse a member list under JavaScript duplicate-key semantics. -/
def collapseFields (ps : List (String × JVal)) : List (String × JVal) :=
  ps.foldl (fun acc kv => putField acc kv.1 kv.2) []

/-- Finish reading the literal true (its first character was consumed). -/
def readTrue (c : Char) : List Char → Except PErr (JVal × List Char)
  | 'r' :: 'u' :: 'e' :: r2 => .ok (.bool true, r2)
  | _ => .error (.unexpected c)

/-- Finish reading the literal false. -/
def readFalse (c : Char) : List Char → Except PErr (JVal × List Char)
  | 'a' :: 'l' :: 's' :: 'e' :: r2 => .ok (.bool false, r2)
  | _ => .error (.unexpected c)

/-- Finish reading the literal null. -/
def readNull (c : Char) : List Char → Except PErr (JVal × List Char)
  | 'u' :: 'l' :: 'l' :: r2 => .ok (.null, r2)
  | _ => .error (.unexpected c)

/-- Wrap a lexed string as a value. -/
def strResult : Except PErr (String × List Char) → Except PErr (JVal × List Char)
  | .ok (s, r2) => .ok (.str s, r2)
  | .error e => .error e

/-- Wrap a lexed number as a value. -/
def numResult : Except PErr (JNum × List Char) → Except PErr (JVal × List Char)
  | .ok (n, r2) => .ok (.num n, r2)
  | .error e => .error e

mutual

/-- Read one JSON value.  Structural on fuel; the entry point supplies more
fuel than any input can use. -/
def readValue (fuel : Nat) (l : List Char) : Except PErr (JVal × List Char) :=
  match fuel with
  | 0 => .error .fuelOut
  | fuel + 1 =>
    match skipSpaces l with
    | [] => .error .endOfInput
    | c :: r => readToken fuel c r

/-- Dispatch on the first significant character of a value. -/
def readToken (fuel0 : Nat) (c : Char) (r : List Char) :
    Except PErr (JVal × List Char) :=
  match fuel0 with
  | 0 => .error .fuelOut
  | fuel + 1 =>
    if c = '{' then readObjBody fuel (skipSpaces r)
    else if c = '[' then readArrBody fuel (skipSpaces r)
    else if c = '"' then strResult (lexString [] r)
    else if c = 't' then readTrue c r
    else if c = 'f' then readFalse c r
    else if c = 'n' then readNull c r
    else if c = '-' ∨ c.isDigit then numResult (lexNumber (c :: r))
    else .error (.unexpected c)

/-- Read an object body after the opening brace and whitespace. -/
def readObjBody (fuel0 : Nat) (r1 : List Char) :
    Except PErr (JVal × List Char) :=
  match fuel0 with
  | 0 => .error .fuelOut
  | fuel + 1 =>
    match r1 with
    | '}' :: r2 => .ok (.obj [], r2)
    | r1 =>
      match readFields fuel r1 with
      | .ok (ps, r2) => .ok (.obj (collapseFields ps), r2)
      | .error e => .error e

/-- Read an array body after the opening bracket and whitespace. -/
def readArrBody (fuel0 : Nat) (r1 : List Char) :
    Except PErr (JVal × List Char) :=
  match fuel0 with
  | 0 => .error .fuelOut
  | fuel + 1 =>
    match r1 with
    | ']' :: r2 => .ok (.arr [], r2)
    | r1 =>
      match readItems fuel r1 with
      | .ok (vs, r2) => .ok (.arr vs, r2)
      | .error e => .error e

/-- Read one or more comma-separated array items up to the closing bracket. -/
def readItems (fuel : Nat) (l : List Char) : Except PErr (List JVal × List Char) :=
  match fuel with
  | 0 => .error .fuelOut
  | fuel + 1 =>
    match readValue fuel l with
    | .error e => .error e
    | .ok (v, r) => readItemSep fuel v r

/-- After one array item, read the separator or the closing bracket. -/
def readItemSep (fuel0 : Nat) (v : JVal) (r : List Char) :
    Except PErr (List JVal × List Char) :=
  match fuel0 with
  | 0 => .error .fuelOut
  | fuel + 1 =>
    match skipSpaces r with
    | ',' :: r2 =>
      (match readItems fuel r2 with
       | .ok (vs, r3) => .ok (v :: vs, r3)
       | .error e => .error e)
    | ']' :: r2 => .ok ([v], r2)
    | [] => .error .endOfInput
    | c :: _ => .error (.unexpected c)

/-- Read one or more comma-separated object members up to the closing brace. -/
def readFields (fuel : Nat) (l : List Char) :
    Except PErr (List (String × JVal) × List Char) :=
  match fuel with
  | 0 => .error .fuelOut
  | fuel + 1 =>
    match skipSpaces l with
    | '"' :: r => readFieldKey fuel r
    | [] => .error .endOfInput
    | c :: _ => .error (.unexpected c)

/-- After the opening quote of a member key, read the key and the colon. -/
def readFieldKey (fuel0 : Nat) (r : List Char) :
    Except PErr (List (String × JVal) × List Char) :=
  match fuel0 with
  | 0 => .error .fuelOut
  | fuel + 1 =>
    match lexString [] r with
    | .error e => .error e
    | .ok (k, r1) =>
      match skipSpaces r1 with
      | ':' :: r2 => readFieldVal fuel k r2
      | [] => .error .endOfInput
      | c :: _ => .error (.unexpected c)

/-- After the colon of a member, read the value, then the separator or the
closing brace. -/
def readFieldVal (fuel0 : Nat) (k : String) (r2 : List Char) :
    Except PErr (List (String × JVal) × List Char) :=
  match fuel0 with
  | 0 => .error .fuelOut
  | fuel + 1 =>
    match readValue fuel r2 with
    | .error e => .error e
    | .ok (v, r3) =>
      match skipSpaces r3 with
      | ',' :: r4 =>
        (match readFields fuel r4 with
         | .ok (ps, r5) => .ok ((k, v) :: ps, r5)
         | .error e => .error e)
      | '}' :: r4 => .ok ([(k, v)], r4)
      | [] => .error .endOfInput
      | c :: _ => .error (.unexpected c)

end

/-- Model of JSON.parse over a character list: read one value, then require
only whitespace to remain.  The fuel is ample: every chain of stage calls
between two fuel ticks consumes at least one character per three ticks. -/
def jsonParse (l : List Char) : Except PErr JVal :=
  match readValue (4 * l.length + 4) l with
  | .error e => .error e
  | .ok (v, r) =>
    match skipSpaces r with
    | [] => .ok v
    | c :: _ => .error (.unexpected c)

/-! ## The writer (model of JSON.stringify) -/

/-- Decimal digit characters of a natural number, most significant first,
prepended to acc.  Structural on fuel so the kernel can evaluate it; the
wrapper supplies ample fuel. -/
def decCharsAux : Nat → Nat → List Char → List Char
  | 0, _, acc => acc
  | f + 1, n, acc =>
    if n < 10 then Char.ofNat (48 + n) :: acc
    else decCharsAux f (n / 10) (Char.ofNat (48 + n % 10) :: acc)

/-- Decimal digit characters of a natural number. -/
def decChars (n : Nat) : List Char := decCharsAux (n + 1) n []

/-- Decimal characters of an integer: optional minus sign, then digits. -/
def intChars (i : Int) : List Char :=
  (if i < 0 then ['-'] else []) ++ decChars i.natAbs

/-- Characters of a JSON number in mantissa-exponent form. -/
def writeNumber (n : JNum) : List Char :=
  intChars n.mant ++ (if n.exp10 = 0 then [] else 'e' :: intChars n.exp10)

/-- The hexadecimal digit character for a value below sixteen. -/
def hexDigitChar (n : Nat) : Char :=
  if n < 10 then Char.ofNat (48 + n) else Char.ofNat (87 + n)

/-- The escape sequence JSON.stringify emits for one string character. -/
def escSeq (c : Char) : List Char :=
  if c = '"' then ['\\', '"']
  else if c = '\\' then ['\\', '\\']
  else if c = '\n' then ['\\', 'n']
  else if c = '\r' then ['\\', 'r']
  else if c = '\t' then ['\\', 't']
  else if c = '\x08' then ['\\', 'b']
  else if c = '\x0c' then ['\\', 'f']
  else if c.toNat < 32 then
    ['\\', 'u', '0', '0', hexDigitChar (c.toNat / 16), hexDigitChar (c.toNat % 16)]
  else [c]

/-- Escape every character of a string body. -/
def escAll : List Char → List Char
  | [] => []
  | c :: t => escSeq c ++ escAll t

/-- Characters of a JSON string literal, quotes included. -/
def writeString (s : String) : List Char :=
  '"' :: (escAll s.data ++ ['"'])

mutual

/-- Characters of a serialized JSON value (no insignificant whitespace,
matching JSON.stringify with no indent argument). -/
def writeValue : JVal → List Char
  | .null => ("null").data
  | .bool true => ("true").data
  | .bool false => ("false").data
  | .num n => writeNumber n
  | .str s => writeString s
  | .arr vs => '[' :: writeItems vs ++ [']']
  | .obj fs => '{' :: writeFields fs ++ ['}']

/-- Comma-separated serialized array items. -/
def writeItems : List JVal → List Char
  | [] => []
  | [v] => writeValue v
  | v :: w :: vs => writeValue v ++ ',' :: writeItems (w :: vs)

/-- Comma-separated serialized object members. -/
def writeFields : List (String × JVal) → List Char
  | [] => []
  | [(k, v)] => writeString k ++ ':' :: writeValue v
  | (k, v) :: p :: fs => writeString k ++ ':' :: writeValue v ++ ',' :: writeFields (p :: fs)

end

/-- Model of JSON.stringify. -/
def jsonStringify (v : JVal) : String := String.mk (writeValue v)

/-! ## Trimming and markdown fence stripping

Both Normalizer variants run the same two steps before JSON.parse: trim the
model text, then strip a complete markdown code fence when the regexp
caret backtick backtick backtick (word star) (space star) (newline opt)
(lazy dot star) (newline opt) (space star) backtick backtick backtick dollar
matches with a nonempty second group.  Through the anchors and the lazy body
group, that regexp matches exactly when the trimmed text opens with a fence
line and closes with three backticks at its very end, and group two is then
the enclosed text, stripped of the greedy word-tag and whitespace runs after
the opening fence and of the whitespace run before the closing one. -/

/-- Trim in the sense of String.prototype.trim, over characters. -/
def trimJs (l : List Char) : List Char :=
  ((l.dropWhile jsWs).reverse.dropWhile jsWs).reverse

/-- Find the closing fence: the remainder after the opening fence line must
end in three backticks, and the lazy body group then excludes the whitespace
run that precedes them. -/
def fenceClose (rest : List Char) : Option (List Char) :=
  match rest.reverse with
  | '`' :: '`' :: '`' :: midRev => some ((midRev.dropWhile jsWs).reverse)
  | _ => none

/-- The text both Normalizers hand to JSON.parse: the input trimmed, with a
complete markdown fence removed when the regexp matches with a nonempty
body group (the body is then trimmed again, as in the source). -/
def extractJson (l : List Char) : List Char :=
  let t := trimJs l
  if t.take 3 = ['`', '`', '`'] then
    match fenceClose (((t.drop 3).dropWhile wordChar).dropWhile jsWs) with
    | some body => if body = [] then t else trimJs body
    | none => t
  else t

/-! ## JavaScript value helpers -/

/-- Property lookup on an object member list (keys are unique after
collapseFields, so first match suffices). -/
def lookupF : List (String × JVal) → String → Option JVal
  | [], _ => none
  | (k0, v) :: tl, k => if k0 = k then some v else lookupF tl k

/-- Property read: an object yields its member or none for undefined; reads
on other non-null values yield undefined.  Reads on null throw in
JavaScript and are handled separately at each use site. -/
def JVal.getF : JVal → String → Option JVal
  | .obj fs, k => lookupF fs k
  | _, _ => none

/-- JavaScript truthiness of a JSON value. -/
def JVal.truthy : JVal → Bool
  | .null => false
  | .bool b => b
  | .num n => n.mant != 0
  | .str s => s != ""
  | .arr _ => true
  | .obj _ => true

/-- Truthiness of a possibly-undefined property read. -/
def truthyOpt : Option JVal → Bool
  | none => false
  | some v => v.truthy

/-- Property assignment: an existing key keeps its position and takes the
new value, a fresh key is appended; assignment on a non-object is dropped. -/
def JVal.setF : JVal → String → JVal → JVal
  | .obj fs, k, v => .obj (putField fs k v)
  | x, _, _ => x

/-- The message of the TypeError thrown by a property read on null. -/
def nullAccessMsg : String := "Cannot read properties of null"

/-- JavaScript x or-else d for a possibly-undefined property read x. -/
def pickOr (x : Option JVal) (d : JVal) : JVal :=
  match x with
  | some v => if v.truthy then v else d
  | none => d

/-! ## The Boundary Handler (netlify/functions/identify, English variant) -/

/-- The slice of a Netlify handler event the function reads. -/
structure HandlerEvent where
  httpMethod : String
  body : Option String
deriving Repr, DecidableEq

/-- The response object the handler returns (single Content-Type header). -/
structure HandlerResponse where
  statusCode : Nat
  body : String
  contentType : String
deriving Repr, DecidableEq

/-- Outcome of the generateContent call: the promise rejected (with the
message of the thrown value when it was an Error instance), or a response
arrived whose text property was or was not a string. -/
inductive ModelOutcome where
  | threw (msg : Option String)
  | replied (text : Option String)

/-- Serialized error body, JSON.stringify of an error and message record. -/
def errBody (code msg : String) : String :=
  jsonStringify (.obj [("error", .str code), ("message", .str msg)])

/-- The single Content-Type header value every branch attaches. -/
def appJson : String := "application/json"

/-- Truthiness test of process.env.API_KEY: unset or the empty string. -/
def keyFalsy : Option String → Bool
  | none => true
  | some k => k == ""

/-- The try block that validates the request body: an absent or empty body
throws, then JSON.parse runs, then the truthiness test of the imageData and
mimeType properties (a property read on a parsed null throws a TypeError).
The catch maps any of these throws to the message carried here. -/
def validateBody : Option String → Except String JVal
  | none => .error ("Request body is empty.")
  | some s =>
    if s = "" then .error ("Request body is empty.")
    else
      match jsonParse s.data with
      | .error e => .error e.render
      | .ok .null => .error nullAccessMsg
      | .ok v =>
        if truthyOpt (v.getF ("imageData")) && truthyOpt (v.getF ("mimeType")) then
          .ok v
        else .error ("Missing imageData or mimeType in request body.")

/-- What the handler returns once JSON.parse has run on the fence-stripped
model text: 200 with the re-serialized value, or (through the catch block)
500 with the SyntaxError message under the AI Service Error code. -/
def normalizeParsed : Except PErr JVal → HandlerResponse
  | .ok v => ⟨200, jsonStringify v, appJson⟩
  | .error e => ⟨500, errBody ("AI Service Error") e.render, appJson⟩

/-- The server-side Response Normalizer: trim, strip an optional markdown
fence, JSON.parse, and wrap the outcome as an HTTP response. -/
def serverNormalize (text : String) : HandlerResponse :=
  normalizeParsed (jsonParse (extractJson text.data))

/-- Catch-block default when the thrown value is not an Error instance. -/
def aiGenericMsg : String :=
  "An unexpected error occurred during identification with the AI model."

/-- Message of the error thrown when the response text is not a string. -/
def notStringMsg : String :=
  "Invalid response format from AI: Text content is not a string."

/-- The Boundary Handler, taking the environment credential and the outcome
of the model call alongside the event. -/
def handler (apiKey : Option String) (event : HandlerEvent)
    (outcome : ModelOutcome) : HandlerResponse :=
  if event.httpMethod != "POST" then
    ⟨405, errBody ("Method Not Allowed") ("Only POST requests are accepted."), appJson⟩
  else if keyFalsy apiKey then
    ⟨500, errBody ("Configuration Error") ("API Key is not configured on the server."), appJson⟩
  else
    match validateBody event.body with
    | .error m => ⟨400, errBody ("Bad Request") m, appJson⟩
    | .ok _ =>
      match outcome with
      | .threw m => ⟨500, errBody ("AI Service Error") (m.getD aiGenericMsg), appJson⟩
      | .replied none => ⟨500, errBody ("AI Service Error") notStringMsg, appJson⟩
      | .replied (some text) => serverNormalize text

/-! ## The Image Encoder and the proxied-mode Request Dispatcher
(services/geminiService, English proxied variant) -/

/-- Outcome of the FileReader run: onerror fired (rejecting with an event
that is not an Error instance), or onload fired with the data URL result. -/
inductive FileReadOutcome where
  | failed
  | loaded (dataUrl : String)

/-- Split at every comma, as String.prototype.split with a comma does. -/
def splitComma : List Char → List (List Char)
  | [] => [[]]
  | c :: rest =>
    if c = ',' then [] :: splitComma rest
    else
      match splitComma rest with
      | seg :: segs => (c :: seg) :: segs
      | [] => [[c]]

/-- Message of the Error the encoder rejects with on a missing or empty
base64 payload. -/
def b64FailMsg : String := "Failed to read base64 string from file."

/-- The Image Encoder fileToBase64: take the segment after the first comma
of the data URL; an undefined or empty segment rejects with an Error, an
onerror run rejects with a non-Error event (modelled as none). -/
def fileToBase64 : FileReadOutcome → Except (Option String) String
  | .failed => .error none
  | .loaded r =>
    match (splitComma r.data)[1]? with
    | none => .error (some b64FailMsg)
    | some [] => .error (some b64FailMsg)
    | some cs => .ok (String.mk cs)

/-- The spec classification of encoder failures: the binary content cannot
be read, or the encoding yields no base64 payload at all or an empty one. -/
def EncodingError (file : FileReadOutcome) : Prop :=
  file = .failed ∨
    ∃ r, file = .loaded r ∧
      ((splitComma r.data)[1]? = none ∨ (splitComma r.data)[1]? = some [])

/-- Outcome of the fetch call: the promise chain up to the response threw
(with the message when the thrown value was an Error instance), or a
response arrived with a status code and a raw body text. -/
inductive FetchOutcome where
  | thrown (msg : Option String)
  | response (status : Nat) (body : String)

/-- Catch-block default when the thrown value carries no description. -/
def clientGenericMsg : String :=
  "An unexpected error occurred while communicating with the identification service."

/-- The error record the dispatcher catch block resolves with. -/
def clientErr (m : String) : JVal :=
  .obj [("error", .str ("Client-Side Error")), ("message", .str m)]

/-- Decimal string of a status code, as template interpolation prints it. -/
def statusChars (status : Nat) : String := String.mk (decChars status)

/-- The fallback message embedding the HTTP status code. -/
def reqFailedMsg (status : Nat) : String :=
  "Request failed with status " ++ statusChars status

/-- The record built for a non-2xx response from the parsed (or fallback)
error body, with JavaScript or-else defaults on both properties. -/
def non2xxShape (errorData : JVal) (status : Nat) : JVal :=
  .obj [("error", pickOr (errorData.getF ("error")) (.str ("API Error"))),
        ("message", pickOr (errorData.getF ("message")) (.str (reqFailedMsg status)))]

/-- The proxied-mode Request Dispatcher identifyImage, from the encoder
outcome and the fetch outcome to the resolved ApiResult value.  A json()
rejection on a 2xx body and a property read on a parsed null both throw
into the outer catch, which resolves with the Client-Side Error record. -/
def identifyImage (file : FileReadOutcome) (fetch : FetchOutcome) : JVal :=
  match fileToBase64 file with
  | .error m => clientErr (m.getD clientGenericMsg)
  | .ok _ =>
    match fetch with
    | .thrown m => clientErr (m.getD clientGenericMsg)
    | .response status body =>
      if status < 200 ∨ 299 < status then
        match jsonParse body.data with
        | .error _ =>
          non2xxShape (.obj [("error", .str ("Network Error")),
                             ("message", .str (reqFailedMsg status))]) status
        | .ok .null => clientErr nullAccessMsg
        | .ok v => non2xxShape v status
      else
        match jsonParse body.data with
        | .ok v => v
        | .error e => clientErr e.render

/-! ## The direct-mode Response Normalizer (services/geminiService, direct
variant): fence stripping, JSON.parse, and the fallback-message rewrite. -/

/-- The canonical English fallback sentence the direct variant looks for. -/
def canonicalFallbackEn : String :=
  "The image may not contain a recognizable plant or fruit, or the quality is too low."

/-- The Lao replacement installed over the canonical English fallback. -/
def laoFallback : String :=
  "ຮູບພາບອາດຈະບໍ່ມີພືດ ຫຼື ໝາກໄມ້ທີ່ສາມາດກວດສອບໄດ້, ຫຼື ຄຸນນະພາບຂອງຮູບຕ່ຳເກີນໄປ."

/-- Prefix of the direct-variant catch message (Lao, colon included). -/
def laoApiPrefix : String := "ເກີດຂໍ້ຜິດພາດໃນການເຊື່ອມຕໍ່ API: "

/-- The error record the direct-variant catch block returns. -/
def apiErr (m : String) : JVal :=
  .obj [("error", .str ("API Error")), ("message", .str (laoApiPrefix ++ m))]

/-- Strict equality of the message property with the canonical sentence. -/
def isCanonicalMsg (v : JVal) : Bool :=
  match v.getF ("message") with
  | some (.str m) => m == canonicalFallbackEn
  | _ => false

/-- The direct-mode Normalizer over the model text: trim and fence-strip,
JSON.parse (a failure or a read on parsed null lands in the catch block,
which returns the API Error record), then the fallback-message rewrite on
an error variant carrying exactly the canonical English sentence. -/
def identifyImageDirect (text : String) : JVal :=
  match jsonParse (extractJson text.data) with
  | .error e => apiErr e.render
  | .ok .null => apiErr nullAccessMsg
  | .ok v =>
    if truthyOpt (v.getF ("error")) && isCanonicalMsg v then
      v.setF ("message") (.str laoFallback)
    else v

/-! ## Basic list and string lemmas -/

theorem string_data_append (a b : String) : (a ++ b).data = a.data ++ b.data := rfl

theorem string_eq_empty_of_data {a : String} (h : a.data = []) : a = "" := by
  cases a with
  | mk l => cases h; rfl

theorem str_append_ne {a : String} (b : String) (h : a ≠ "") : a ++ b ≠ "" := by
  intro he
  apply h
  have hd := congrArg String.data he
  rw [string_data_append] at hd
  exact string_eq_empty_of_data (List.append_eq_nil.mp hd).1

theorem length_dropWhile_le (p : Char → Bool) (l : List Char) :
    (l.dropWhile p).length ≤ l.length :=
  (List.dropWhile_suffix p).length_le

theorem dropWhile_head_false {p : Char → Bool} {c : Char} (t : List Char)
    (h : p c = false) : (c :: t).dropWhile p = c :: t := by
  simp [List.dropWhile_cons, h]

theorem dropWhile_fix_head {p : Char → Bool} {c : Char} {t : List Char}
    (h : (c :: t).dropWhile p = c :: t) : p c = false := by
  by_contra hb
  rw [Bool.not_eq_false] at hb
  rw [List.dropWhile_cons, if_pos hb] at h
  have := length_dropWhile_le p t
  rw [h] at this
  simp at this

theorem dropWhile_append_all {p : Char → Bool} {a : List Char} (b : List Char)
    (h : ∀ c ∈ a, p c = true) : (a ++ b).dropWhile p = b.dropWhile p := by
  induction a with
  | nil => rfl
  | cons c t ih =>
    rw [List.cons_append, List.dropWhile_cons, if_pos (h c (by simp))]
    exact ih (fun x hx => h x (by simp [hx]))

theorem takeWhile_append_all {p : Char → Bool} {a : List Char} (b : List Char)
    (h : ∀ c ∈ a, p c = true) : (a ++ b).takeWhile p = a ++ b.takeWhile p := by
  induction a with
  | nil => rfl
  | cons c t ih =>
    rw [List.cons_append, List.takeWhile_cons, if_pos (h c (by simp)), ih
      (fun x hx => h x (by simp [hx])), List.cons_append]

theorem trim_fix {l : List Char} (h : trimJs l = l) :
    l.dropWhile jsWs = l ∧ l.reverse.dropWhile jsWs = l.reverse := by
  have hlen1 := length_dropWhile_le jsWs l
  have hlen2 := length_dropWhile_le jsWs (l.dropWhile jsWs).reverse
  rw [List.length_reverse] at hlen2
  have hrev : (l.dropWhile jsWs).reverse.dropWhile jsWs = l.reverse := by
    have := congrArg List.reverse h
    rwa [trimJs, List.reverse_reverse] at this
  have hlen3 := congrArg List.length hrev
  rw [List.length_reverse] at hlen3
  have heq : l.dropWhile jsWs = l :=
    (List.dropWhile_suffix jsWs).sublist.eq_of_length (by omega)
  refine ⟨heq, ?_⟩
  rwa [heq] at hrev

theorem ne_of_digit {c : Char} (h : c.isDigit = true) (x : Char)
    (hx : x.isDigit = false) : c ≠ x := by
  intro e
  subst e
  rw [h] at hx
  exact Bool.noConfusion hx

theorem jsonWs_of_digit {c : Char} (h : c.isDigit = true) : jsonWs c = false := by
  simp only [jsonWs, Bool.or_eq_false_iff, beq_eq_false_iff_ne, ne_eq]
  refine ⟨⟨⟨?_, ?_⟩, ?_⟩, ?_⟩ <;> · intro hc; subst hc; exact absurd h (by decide)

theorem jsWs_of_digit {c : Char} (h : c.isDigit = true) : jsWs c = false := by
  simp only [jsWs, Bool.or_eq_false_iff, beq_eq_false_iff_ne, ne_eq]
  refine ⟨⟨⟨⟨⟨⟨⟨?_, ?_⟩, ?_⟩, ?_⟩, ?_⟩, ?_⟩, ?_⟩, ?_⟩ <;>
    · intro hc; subst hc; exact absurd h (by decide)

theorem PErr.render_ne (e : PErr) : e.render ≠ "" := by
  cases e with
  | endOfInput => decide
  | fuelOut => decide
  | unexpected c =>
    rw [PErr.render]
    exact str_append_ne _ (str_append_ne _ (by decide))
  | badEscape c =>
    rw [PErr.render]
    exact str_append_ne _ (str_append_ne _ (by decide))

/-! ## Fence-stripping lemmas -/

theorem trimJs_keep {l : List Char}
    (h1 : l.dropWhile jsWs = l) (h2 : l.reverse.dropWhile jsWs = l.reverse) :
    trimJs l = l := by
  rw [trimJs, h1, h2, List.reverse_reverse]

theorem fence_extract (lang body nl : String)
    (hw : ∀ c ∈ lang.data, wordChar c = true)
    (htrim : trimJs body.data = body.data)
    (hne : body.data ≠ [])
    (hnl : nl = "" ∨ nl = "\n") :
    extractJson (("```" ++ lang ++ "\n" ++ body ++ nl ++ "```").data) = body.data := by
  obtain ⟨c, t, hB⟩ : ∃ c t, body.data = c :: t := by
    cases hcons : body.data with
    | nil => exact absurd hcons hne
    | cons c t => exact ⟨c, t, rfl⟩
  have hBhead : jsWs c = false := dropWhile_fix_head (hB ▸ (trim_fix htrim).1)
  have h0 : ("```" ++ lang ++ "\n" ++ body ++ nl ++ "```").data
      = '`' :: '`' :: '`' ::
        (lang.data ++ '\n' :: (body.data ++ (nl.data ++ ['`', '`', '`']))) := by
    simp only [string_data_append, List.append_assoc]
    rfl
  rw [h0, extractJson]
  have hdrop1 : (lang.data ++ '\n' :: (body.data ++ (nl.data ++ ['`', '`', '`']))).dropWhile
      wordChar = '\n' :: (body.data ++ (nl.data ++ ['`', '`', '`'])) := by
    rw [dropWhile_append_all _ hw]
    exact dropWhile_head_false _ (by decide)
  have hdrop2 : ('\n' :: (body.data ++ (nl.data ++ ['`', '`', '`']))).dropWhile jsWs
      = body.data ++ (nl.data ++ ['`', '`', '`']) := by
    rw [List.dropWhile_cons, if_pos (by decide)]
    rw [hB, List.cons_append]
    exact dropWhile_head_false _ hBhead
  have hrevmid : (body.data ++ (nl.data ++ ['`', '`', '`'])).reverse
      = '`' :: '`' :: '`' :: (nl.data.reverse ++ body.data.reverse) := by
    simp [List.reverse_append]
  have hmidtrim : (nl.data.reverse ++ body.data.reverse).dropWhile jsWs
      = body.data.reverse := by
    rcases hnl with h | h <;> subst h
    · simpa using (trim_fix htrim).2
    · show (['\n'] ++ body.data.reverse).dropWhile jsWs = body.data.reverse
      rw [List.cons_append, List.dropWhile_cons, if_pos (by decide), List.nil_append]
      exact (trim_fix htrim).2
  have hEsplit : '`' :: '`' :: '`' ::
      (lang.data ++ '\n' :: (body.data ++ (nl.data ++ ['`', '`', '`'])))
      = ('`' :: '`' :: '`' :: (lang.data ++ '\n' :: (body.data ++ nl.data)))
        ++ ['`', '`', '`'] := by
    simp [List.append_assoc]
  have htrimAll : trimJs ('`' :: '`' :: '`' ::
      (lang.data ++ '\n' :: (body.data ++ (nl.data ++ ['`', '`', '`'])))) =
      '`' :: '`' :: '`' ::
        (lang.data ++ '\n' :: (body.data ++ (nl.data ++ ['`', '`', '`']))) := by
    apply trimJs_keep
    · exact dropWhile_head_false _ (by decide)
    · rw [hEsplit, List.reverse_append]
      exact dropWhile_head_false _ (by decide)
  rw [htrimAll]
  rw [if_pos (by rfl)]
  have hdrop3 : ('`' :: '`' :: '`' ::
      (lang.data ++ '\n' :: (body.data ++ (nl.data ++ ['`', '`', '`'])))).drop 3
      = lang.data ++ '\n' :: (body.data ++ (nl.data ++ ['`', '`', '`'])) := rfl
  rw [hdrop3, hdrop1, hdrop2, fenceClose, hrevmid]
  show (if (List.dropWhile jsWs (nl.data.reverse ++ body.data.reverse)).reverse = []
    then _ else trimJs (List.dropWhile jsWs (nl.data.reverse ++ body.data.reverse)).reverse)
    = body.data
  rw [hmidtrim, List.reverse_reverse]
  rw [if_neg hne]
  exact htrim

theorem jsonParse_backtick (l : List Char) :
    jsonParse ('`' :: l) = .error (.unexpected '`') := rfl

theorem jsonParse_take3 {l : List Char} {v : JVal} (h : jsonParse l = .ok v) :
    l.take 3 ≠ ['`', '`', '`'] := by
  intro ht
  have hl : l = '`' :: '`' :: '`' :: l.drop 3 := by
    conv_lhs => rw [← List.take_append_drop 3 l]
    rw [ht]
    rfl
  rw [hl, jsonParse_backtick] at h
  exact Except.noConfusion h

theorem extract_of_parse_ok {text : String} {v : JVal}
    (h : jsonParse (trimJs text.data) = .ok v) :
    extractJson text.data = trimJs text.data := by
  simp only [extractJson]
  rw [if_neg (jsonParse_take3 h)]

/-- Claim C2 (confirmed): when the trimmed text is a complete fenced code
block (fence line with an optional word tag, a nonempty trimmed body, an
optional trailing newline before the closing fence, anchored at both ends),
the Normalizer extracts exactly the body and its output equals parsing the
body alone; and on any text whose trimmed form is valid JSON (such text
never matches the fence pattern), the output equals parsing the trimmed
text directly. -/
theorem claim2_fence_normalization :
    (∀ (lang body nl : String),
      (∀ c ∈ lang.data, wordChar c = true) →
      trimJs body.data = body.data → body.data ≠ [] →
      (nl = "" ∨ nl = "\n") →
      extractJson (("```" ++ lang ++ "\n" ++ body ++ nl ++ "```").data) = body.data ∧
      serverNormalize ("```" ++ lang ++ "\n" ++ body ++ nl ++ "```")
        = normalizeParsed (jsonParse body.data)) ∧
    (∀ (text : String) (v : JVal), jsonParse (trimJs text.data) = .ok v →
      extractJson text.data = trimJs text.data ∧
      serverNormalize text = ⟨200, jsonStringify v, appJson⟩) := by
  constructor
  · intro lang body nl hw ht hne hnl
    have he := fence_extract lang body nl hw ht hne hnl
    refine ⟨he, ?_⟩
    show normalizeParsed (jsonParse (extractJson _)) = _
    rw [he]
  · intro text v h
    have he := extract_of_parse_ok h
    refine ⟨he, ?_⟩
    show normalizeParsed (jsonParse (extractJson _)) = _
    rw [he, h]
    rfl

/-- Witness for C2 at a fenced input with a json tag and trailing newline,
and at a plain whitespace-padded JSON input. -/
theorem claim2_witness :
    (extractJson (("```" ++ "json" ++ "\n" ++ "\x7b\"a\":true\x7d" ++ "\n" ++ "```").data)
        = ("\x7b\"a\":true\x7d").data ∧
      serverNormalize ("```" ++ "json" ++ "\n" ++ "\x7b\"a\":true\x7d" ++ "\n" ++ "```")
        = normalizeParsed (jsonParse (("\x7b\"a\":true\x7d").data))) ∧
    (extractJson ((" \x7b\"a\":true\x7d ").data) = trimJs ((" \x7b\"a\":true\x7d ").data) ∧
      serverNormalize (" \x7b\"a\":true\x7d ")
        = ⟨200, jsonStringify (.obj [("a", .bool true)]), appJson⟩) :=
  ⟨claim2_fence_normalization.1 ("json") ("\x7b\"a\":true\x7d") ("\n")
      (by decide) (by rfl) (by decide) (Or.inr rfl),
   claim2_fence_normalization.2 (" \x7b\"a\":true\x7d ") (.obj [("a", .bool true)]) rfl⟩

/-! ## Component-level helper lemmas -/

theorem validateBody_error_ne {b : Option String} {m : String}
    (h : validateBody b = .error m) : m ≠ "" := by
  unfold validateBody at h
  split at h
  · injection h with h2
    subst h2
    decide
  · split at h
    · injection h with h2
      subst h2
      decide
    · split at h
      · injection h with h2
        subst h2
        exact PErr.render_ne _
      · injection h with h2
        subst h2
        decide
      · split at h
        · exact Except.noConfusion h
        · injection h with h2
          subst h2
          decide

theorem truthy_str_ne {s : String} (h : s ≠ "") : (JVal.str s).truthy = true := by
  simp [JVal.truthy, bne_iff_ne, h]

theorem pickOr_some_truthy {v d : JVal} (h : v.truthy = true) :
    pickOr (some v) d = v := by
  simp [pickOr, h]

theorem pickOr_truthy {x : Option JVal} {d : JVal} (h : d.truthy = true) :
    (pickOr x d).truthy = true := by
  cases x with
  | none => exact h
  | some v =>
    rw [pickOr]
    split
    · assumption
    · exact h

theorem reqFailedMsg_ne (status : Nat) : reqFailedMsg status ≠ "" :=
  str_append_ne _ (by decide)

/-! ## Claims C1 and C3 -/

/-- Counterexample to C1 as stated: on the malformed text open-brace-not-json,
the direct-mode Normalizer (one of the two Normalizer instantiations the claim
covers) returns the error code API Error, not AI Service Error. -/
theorem claim1_counterexample :
    jsonParse (extractJson (("\x7bnot json").data)) = .error (.unexpected 'n') ∧
    identifyImageDirect ("\x7bnot json")
      = .obj [("error", .str ("API Error")),
              ("message", .str (laoApiPrefix ++ PErr.render (.unexpected 'n')))] ∧
    (identifyImageDirect ("\x7bnot json")).getF ("error") ≠ some (.str ("AI Service Error")) := by
  refine ⟨rfl, rfl, ?_⟩
  intro h
  rw [show (identifyImageDirect ("\x7bnot json")).getF ("error")
      = some (.str ("API Error")) from rfl] at h
  injection h with h2
  injection h2 with h3
  exact absurd h3 (by decide)

/-- Claim C1 (corrected): on model text that is not valid JSON after trimming
and fence stripping, the server-side Normalizer returns (never throws) the
error variant with code AI Service Error and the nonempty SyntaxError message,
while the direct-mode Normalizer returns the error variant with code API Error
and a nonempty message embedding that SyntaxError message. -/
theorem claim1_amended (text : String) (e : PErr)
    (h : jsonParse (extractJson text.data) = .error e) :
    serverNormalize text = ⟨500, errBody ("AI Service Error") e.render, appJson⟩ ∧
    e.render ≠ "" ∧
    identifyImageDirect text
      = .obj [("error", .str ("API Error")),
              ("message", .str (laoApiPrefix ++ e.render))] ∧
    laoApiPrefix ++ e.render ≠ "" := by
  refine ⟨?_, PErr.render_ne e, ?_, str_append_ne _ (by decide)⟩
  · show normalizeParsed (jsonParse (extractJson text.data)) = _
    rw [h]
    rfl
  · unfold identifyImageDirect
    rw [h]
    rfl

/-- Witness for C1 at the malformed input open-brace-not-json. -/
theorem claim1_witness :
    serverNormalize ("\x7bnot json")
      = ⟨500, errBody ("AI Service Error") (PErr.render (.unexpected 'n')), appJson⟩ ∧
    PErr.render (.unexpected 'n') ≠ "" ∧
    identifyImageDirect ("\x7bnot json")
      = .obj [("error", .str ("API Error")),
              ("message", .str (laoApiPrefix ++ PErr.render (.unexpected 'n')))] ∧
    laoApiPrefix ++ PErr.render (.unexpected 'n') ≠ "" :=
  claim1_amended ("\x7bnot json") (.unexpected 'n') rfl

/-- Counterexample to C3 as stated: a parsed object carrying neither a name
nor an error field is passed through as a 200 success body unchanged, not
mapped to the error variant. -/
theorem claim3_counterexample :
    jsonParse (extractJson (("\x7b\"foo\":true\x7d").data))
      = .ok (.obj [("foo", .bool true)]) ∧
    serverNormalize ("\x7b\"foo\":true\x7d")
      = ⟨200, "\x7b\"foo\":true\x7d", appJson⟩ ∧
    (JVal.obj [("foo", .bool true)]).getF ("name") = none ∧
    (JVal.obj [("foo", .bool true)]).getF ("error") = none :=
  ⟨rfl, rfl, rfl, rfl⟩

/-- Claim C3 (corrected): per call the server-side Normalizer produces
exactly one of the two outcomes determined by the parse result, but it
performs no structural validation: a successfully parsed value is returned
as the success body even when it lacks both a name and an error field. -/
theorem claim3_amended (text : String) :
    (∃ v, jsonParse (extractJson text.data) = .ok v ∧
      serverNormalize text = ⟨200, jsonStringify v, appJson⟩) ∨
    (∃ e, jsonParse (extractJson text.data) = .error e ∧
      serverNormalize text
        = ⟨500, errBody ("AI Service Error") (PErr.render e), appJson⟩ ∧
      PErr.render e ≠ "") := by
  cases h : jsonParse (extractJson text.data) with
  | ok v =>
    refine Or.inl ⟨v, rfl, ?_⟩
    show normalizeParsed (jsonParse (extractJson text.data)) = _
    rw [h]
    rfl
  | error e =>
    refine Or.inr ⟨e, rfl, ?_, PErr.render_ne e⟩
    show normalizeParsed (jsonParse (extractJson text.data)) = _
    rw [h]
    rfl

/-! ## Claim C5 -/

/-- Counterexample to C5 as stated: a body whose imageData is the number 123,
hence present but not a string, passes the English-variant truthiness check,
so the handler proceeds to the model call and answers 200 rather than 400. -/
theorem claim5_counterexample :
    handler (some ("k"))
        ⟨"POST", some ("\x7b\"imageData\":123,\"mimeType\":\"x\"\x7d")⟩
        (.replied (some ("\x7b\"name\":\"A\",\"description\":\"B\"\x7d")))
      = ⟨200, "\x7b\"name\":\"A\",\"description\":\"B\"\x7d", appJson⟩ ∧
    jsonParse (("\x7b\"imageData\":123,\"mimeType\":\"x\"\x7d").data)
      = .ok (.obj [("imageData", .num ⟨123, 0⟩), ("mimeType", .str ("x"))]) ∧
    (∀ s : String, JVal.num ⟨123, 0⟩ ≠ .str s) :=
  ⟨rfl, rfl, fun _ h => JVal.noConfusion h⟩

/-- Claim C5 (corrected): the handler evaluates its checks in order, namely
non-POST method to 405 Method Not Allowed, then a missing or empty credential
to 500 Configuration Error regardless of body, then a body that is missing,
empty, unparsable, parsed null, or whose imageData or mimeType property is
absent or falsy (a truthiness check, not a string-type check) to 400 Bad
Request with a nonempty validation message. -/
theorem claim5_amended :
    (∀ key ev o, ev.httpMethod ≠ "POST" →
      handler key ev o = ⟨405,
        errBody ("Method Not Allowed") ("Only POST requests are accepted."), appJson⟩) ∧
    (∀ key ev o, ev.httpMethod = "POST" → keyFalsy key = true →
      handler key ev o = ⟨500,
        errBody ("Configuration Error") ("API Key is not configured on the server."),
        appJson⟩) ∧
    (∀ key ev o m, ev.httpMethod = "POST" → keyFalsy key = false →
      validateBody ev.body = .error m →
      handler key ev o = ⟨400, errBody ("Bad Request") m, appJson⟩ ∧ m ≠ "") := by
  refine ⟨?_, ?_, ?_⟩
  · intro key ev o h
    rw [handler.eq_def, if_pos (by simp [bne_iff_ne, h])]
  · intro key ev o h hk
    rw [handler.eq_def, if_neg (by simp [bne_iff_ne, h]), if_pos hk]
  · intro key ev o m h hk hval
    refine ⟨?_, validateBody_error_ne hval⟩
    rw [handler.eq_def, if_neg (by simp [bne_iff_ne, h]), if_neg (by simp [hk]), hval]

/-- Witness for C5 at concrete events: a GET, a POST with no credential, and
a POST with a credential but an empty body. -/
theorem claim5_witness :
    handler (some ("k")) ⟨"GET", none⟩ (.threw none)
      = ⟨405, errBody ("Method Not Allowed") ("Only POST requests are accepted."), appJson⟩ ∧
    handler none ⟨"POST", some ("\x7b\"imageData\":\"a\",\"mimeType\":\"b\"\x7d")⟩ (.threw none)
      = ⟨500, errBody ("Configuration Error") ("API Key is not configured on the server."), appJson⟩ ∧
    (handler (some ("k")) ⟨"POST", none⟩ (.threw none)
      = ⟨400, errBody ("Bad Request") ("Request body is empty."), appJson⟩ ∧
      ("Request body is empty." : String) ≠ "") :=
  ⟨claim5_amended.1 (some ("k")) ⟨"GET", none⟩ (.threw none) (by decide),
   claim5_amended.2.1 none ⟨"POST", some ("\x7b\"imageData\":\"a\",\"mimeType\":\"b\"\x7d")⟩
     (.threw none) rfl rfl,
   claim5_amended.2.2 (some ("k")) ⟨"POST", none⟩ (.threw none) ("Request body is empty.")
     rfl rfl rfl⟩

/-! ## Claims C6 and C7 -/

/-- Claim C6 (confirmed): on any non-2xx response whose body is not parsable
as JSON, the proxied-mode Dispatcher resolves with the Network Error code and
the message embedding the HTTP status code. -/
theorem claim6_non2xx_unparsable (fo : FileReadOutcome) (b : String)
    (status : Nat) (body : String) (e : PErr)
    (hf : fileToBase64 fo = .ok b)
    (hs : status < 200 ∨ 299 < status)
    (hp : jsonParse body.data = .error e) :
    identifyImage fo (.response status body)
      = .obj [("error", .str ("Network Error")),
              ("message", .str (reqFailedMsg status))] := by
  unfold identifyImage
  rw [hf]
  show (if status < 200 ∨ 299 < status then _ else _) = _
  rw [if_pos hs, hp]
  show non2xxShape _ status = _
  unfold non2xxShape
  rw [show (JVal.obj [("error", JVal.str ("Network Error")),
        ("message", JVal.str (reqFailedMsg status))]).getF ("error")
      = some (.str ("Network Error")) from rfl,
    show (JVal.obj [("error", JVal.str ("Network Error")),
        ("message", JVal.str (reqFailedMsg status))]).getF ("message")
      = some (.str (reqFailedMsg status)) from rfl,
    pickOr_some_truthy (truthy_str_ne (by decide)),
    pickOr_some_truthy (truthy_str_ne (reqFailedMsg_ne status))]

/-- Witness for C6 at status 503 with the unparsable body oops. -/
theorem claim6_witness :
    identifyImage (.loaded ("d,AAA")) (.response 503 ("oops"))
      = .obj [("error", .str ("Network Error")),
              ("message", .str (reqFailedMsg 503))] ∧
    reqFailedMsg 503 = "Request failed with status 503" :=
  ⟨claim6_non2xx_unparsable (.loaded ("d,AAA")) ("AAA") 503 ("oops")
      (.unexpected 'o') rfl (Or.inr (by omega)) rfl,
   rfl⟩

/-- Claim C7 (confirmed): on any 2xx response whose body parses as JSON, the
proxied-mode Dispatcher resolves with the parsed body itself, unchanged. -/
theorem claim7_2xx_passthrough (fo : FileReadOutcome) (b : String)
    (status : Nat) (body : String) (v : JVal)
    (hf : fileToBase64 fo = .ok b)
    (h1 : 200 ≤ status) (h2 : status ≤ 299)
    (hp : jsonParse body.data = .ok v) :
    identifyImage fo (.response status body) = v := by
  unfold identifyImage
  rw [hf]
  show (if status < 200 ∨ 299 < status then _ else _) = _
  rw [if_neg (by omega), hp]

/-- Witness for C7 at status 200 with the Mango body: the result is the
parsed object itself, carrying the name and no error code. -/
theorem claim7_witness :
    identifyImage (.loaded ("d,AAA"))
        (.response 200 ("\x7b\"name\":\"Mango\",\"description\":\"A tropical fruit.\"\x7d"))
      = .obj [("name", .str ("Mango")), ("description", .str ("A tropical fruit."))] ∧
    (JVal.obj [("name", .str ("Mango")),
        ("description", .str ("A tropical fruit."))]).getF ("name")
      = some (.str ("Mango")) ∧
    (JVal.obj [("name", .str ("Mango")),
        ("description", .str ("A tropical fruit."))]).getF ("error") = none :=
  ⟨claim7_2xx_passthrough (.loaded ("d,AAA")) ("AAA") 200
      ("\x7b\"name\":\"Mango\",\"description\":\"A tropical fruit.\"\x7d")
      (.obj [("name", .str ("Mango")), ("description", .str ("A tropical fruit."))])
      rfl (by omega) (by omega) rfl,
   rfl, rfl⟩

/-! ## Claims C4 and C9 -/

theorem non2xxShape_truthy (v : JVal) (status : Nat) :
    truthyOpt ((non2xxShape v status).getF ("error")) = true := by
  show (pickOr (v.getF ("error")) (.str ("API Error"))).truthy = true
  exact pickOr_truthy (truthy_str_ne (by decide))

/-- Claim C4 (confirmed): the Dispatcher never rejects.  Encoder failures and
exceptions thrown during the fetch resolve with the Client-Side Error code,
carrying the exception description or the generic message when there is
none; and on every input the resolved value is either an error variant or
the parsed body of a 2xx response. -/
theorem claim4_never_rejects :
    (∀ fo fetch m, fileToBase64 fo = .error m →
      identifyImage fo fetch = clientErr (m.getD clientGenericMsg)) ∧
    (∀ fo b m, fileToBase64 fo = .ok b →
      identifyImage fo (.thrown m) = clientErr (m.getD clientGenericMsg)) ∧
    (∀ fo fetch, truthyOpt ((identifyImage fo fetch).getF ("error")) = true ∨
      ∃ status body v, fetch = .response status body ∧ 200 ≤ status ∧ status ≤ 299 ∧
        jsonParse body.data = .ok v ∧ identifyImage fo fetch = v) := by
  refine ⟨?_, ?_, ?_⟩
  · intro fo fetch m hm
    unfold identifyImage
    rw [hm]
  · intro fo b m hf
    unfold identifyImage
    rw [hf]
  · intro fo fetch
    cases hf : fileToBase64 fo with
    | error m =>
      left
      unfold identifyImage
      rw [hf]
      rfl
    | ok b =>
      cases fetch with
      | thrown m =>
        left
        unfold identifyImage
        rw [hf]
        rfl
      | response status body =>
        by_cases hs : status < 200 ∨ 299 < status
        · left
          unfold identifyImage
          rw [hf]
          show truthyOpt (((if status < 200 ∨ 299 < status then _ else _) : JVal).getF ("error")) = true
          rw [if_pos hs]
          cases hp : jsonParse body.data with
          | error e =>
            exact non2xxShape_truthy (.obj [("error", .str ("Network Error")),
              ("message", .str (reqFailedMsg status))]) status
          | ok v =>
            cases v with
            | null => rfl
            | bool b2 => exact non2xxShape_truthy (.bool b2) status
            | num n => exact non2xxShape_truthy (.num n) status
            | str s2 => exact non2xxShape_truthy (.str s2) status
            | arr vs => exact non2xxShape_truthy (.arr vs) status
            | obj fs => exact non2xxShape_truthy (.obj fs) status
        · cases hp : jsonParse body.data with
          | error e =>
            left
            unfold identifyImage
            rw [hf]
            show truthyOpt (((if status < 200 ∨ 299 < status then _ else _) : JVal).getF ("error")) = true
            rw [if_neg hs, hp]
            rfl
          | ok v =>
            right
            refine ⟨status, body, v, rfl, by omega, by omega, hp, ?_⟩
            unfold identifyImage
            rw [hf]
            show (if status < 200 ∨ 299 < status then _ else _) = _
            rw [if_neg hs, hp]

/-- Witness for C4: an onerror encoder failure resolves with the generic
Client-Side Error record, a thrown fetch with an Error message resolves with
that message, and the failure-or-passthrough disjunction holds at a thrown
fetch. -/
theorem claim4_witness :
    identifyImage .failed (.thrown (some ("boom"))) = clientErr clientGenericMsg ∧
    identifyImage (.loaded ("d,AAA")) (.thrown (some ("boom"))) = clientErr ("boom") ∧
    (truthyOpt ((identifyImage (.loaded ("d,AAA")) (.thrown none)).getF ("error")) = true ∨
      ∃ status body v, (FetchOutcome.thrown none) = .response status body ∧
        200 ≤ status ∧ status ≤ 299 ∧ jsonParse body.data = .ok v ∧
        identifyImage (.loaded ("d,AAA")) (.thrown none) = v) :=
  ⟨claim4_never_rejects.1 .failed (.thrown (some ("boom"))) none rfl,
   claim4_never_rejects.2.1 (.loaded ("d,AAA")) ("AAA") (some ("boom")) rfl,
   claim4_never_rejects.2.2 (.loaded ("d,AAA")) (.thrown none)⟩

/-- Claim C9 (confirmed): whenever the file read fails or the data URL
carries no or an empty base64 payload, the Image Encoder rejects, and the
Dispatcher surfaces that rejection as the Client-Side Error variant. -/
theorem claim9_encoding (fo : FileReadOutcome) (fetch : FetchOutcome)
    (h : EncodingError fo) :
    (∃ m, fileToBase64 fo = .error m) ∧
    (identifyImage fo fetch).getF ("error") = some (.str ("Client-Side Error")) := by
  have hfail : ∃ m, fileToBase64 fo = .error m := by
    rcases h with h | ⟨r, hr, hp⟩
    · subst h
      exact ⟨none, rfl⟩
    · subst hr
      have h2 : fileToBase64 (.loaded r)
          = match (splitComma r.data)[1]? with
            | none => .error (some b64FailMsg)
            | some [] => .error (some b64FailMsg)
            | some cs => .ok (String.mk cs) := rfl
      rcases hp with hp | hp <;>
        · refine ⟨some b64FailMsg, ?_⟩
          rw [h2, hp]
  obtain ⟨m, hm⟩ := hfail
  refine ⟨⟨m, hm⟩, ?_⟩
  unfold identifyImage
  rw [hm]
  rfl

/-- Witness for C9 at a data URL with no comma, hence no base64 payload. -/
theorem claim9_witness :
    (∃ m, fileToBase64 (.loaded ("nocomma")) = .error m) ∧
    (identifyImage (.loaded ("nocomma")) (.thrown none)).getF ("error")
      = some (.str ("Client-Side Error")) :=
  claim9_encoding (.loaded ("nocomma")) (.thrown none)
    (Or.inr ⟨"nocomma", rfl, Or.inl rfl⟩)

/-! ## Claim C8 -/

theorem lookup_putField_self (fs : List (String × JVal)) (k : String) (v : JVal) :
    lookupF (putField fs k v) k = some v := by
  induction fs with
  | nil => simp [putField, lookupF]
  | cons p tl ih =>
    obtain ⟨k0, v0⟩ := p
    rw [putField]
    by_cases hk : k0 = k
    · rw [if_pos hk, lookupF, if_pos rfl]
    · rw [if_neg hk, lookupF, if_neg hk]
      exact ih

theorem lookup_putField_ne (fs : List (String × JVal)) (k k2 : String) (v : JVal)
    (h : k2 ≠ k) : lookupF (putField fs k v) k2 = lookupF fs k2 := by
  induction fs with
  | nil =>
    rw [putField, lookupF, lookupF, if_neg (fun e => h e.symm), lookupF]
  | cons p tl ih =>
    obtain ⟨k0, v0⟩ := p
    rw [putField]
    by_cases hk : k0 = k
    · subst hk
      rw [if_pos rfl, lookupF, lookupF, if_neg (fun e => h e.symm),
        if_neg (fun e => h e.symm)]
    · rw [if_neg hk, lookupF, lookupF]
      by_cases h2 : k0 = k2
      · rw [if_pos h2, if_pos h2]
      · rw [if_neg h2, if_neg h2]
        exact ih

theorem truthy_getF_obj {v : JVal} {k : String}
    (h : truthyOpt (v.getF k) = true) : ∃ fs, v = .obj fs := by
  cases v with
  | obj fs => exact ⟨fs, rfl⟩
  | null => simp [JVal.getF, truthyOpt] at h
  | bool b => simp [JVal.getF, truthyOpt] at h
  | num n => simp [JVal.getF, truthyOpt] at h
  | str s => simp [JVal.getF, truthyOpt] at h
  | arr vs => simp [JVal.getF, truthyOpt] at h

theorem isCanonicalMsg_true {v : JVal}
    (h : v.getF ("message") = some (.str canonicalFallbackEn)) :
    isCanonicalMsg v = true := by
  rw [isCanonicalMsg, h]
  simp

theorem isCanonicalMsg_false {v : JVal}
    (h : v.getF ("message") ≠ some (.str canonicalFallbackEn)) :
    isCanonicalMsg v = false := by
  rw [isCanonicalMsg]
  split
  · rename_i m heq
    simp only [beq_eq_false_iff_ne, ne_eq]
    intro he
    subst he
    exact h heq
  · rfl

/-- Claim C8 (confirmed): when the parsed direct-mode output is an error
variant whose message is exactly the canonical English fallback sentence,
the message property is replaced by the Lao localization and every other
property is preserved; any other parsed value passes through unchanged. -/
theorem claim8_fallback_rewrite (text : String) (v : JVal)
    (h : jsonParse (extractJson text.data) = .ok v) :
    ((truthyOpt (v.getF ("error")) = true ∧
      v.getF ("message") = some (.str canonicalFallbackEn)) →
      identifyImageDirect text = v.setF ("message") (.str laoFallback) ∧
      (v.setF ("message") (.str laoFallback)).getF ("message")
        = some (.str laoFallback) ∧
      (∀ k, k ≠ "message" →
        (v.setF ("message") (.str laoFallback)).getF k = v.getF k)) ∧
    ((v ≠ .null ∧ (truthyOpt (v.getF ("error")) = false ∨
      v.getF ("message") ≠ some (.str canonicalFallbackEn))) →
      identifyImageDirect text = v) := by
  constructor
  · rintro ⟨herr, hmsg⟩
    obtain ⟨fs, rfl⟩ := truthy_getF_obj herr
    refine ⟨?_, ?_, ?_⟩
    · unfold identifyImageDirect
      rw [h]
      show (if (truthyOpt ((JVal.obj fs).getF ("error"))
          && isCanonicalMsg (.obj fs)) = true then _ else _) = _
      rw [herr, isCanonicalMsg_true hmsg]
      rfl
    · show (JVal.obj (putField fs ("message") (.str laoFallback))).getF ("message") = _
      exact lookup_putField_self fs _ _
    · intro k hk
      show (JVal.obj (putField fs ("message") (.str laoFallback))).getF k = _
      exact lookup_putField_ne fs _ _ _ hk
  · rintro ⟨hnn, hcond⟩
    have hfalse : (truthyOpt (v.getF ("error")) && isCanonicalMsg v) = false := by
      rcases hcond with hc | hc
      · rw [hc]
        rfl
      · rw [isCanonicalMsg_false hc]
        exact Bool.and_false _
    unfold identifyImageDirect
    rw [h]
    cases v with
    | null => exact absurd rfl hnn
    | bool b =>
      show (if (truthyOpt ((JVal.bool b).getF ("error"))
          && isCanonicalMsg (.bool b)) = true then _ else _) = _
      rw [hfalse]
      rfl
    | num n =>
      show (if (truthyOpt ((JVal.num n).getF ("error"))
          && isCanonicalMsg (.num n)) = true then _ else _) = _
      rw [hfalse]
      rfl
    | str s =>
      show (if (truthyOpt ((JVal.str s).getF ("error"))
          && isCanonicalMsg (.str s)) = true then _ else _) = _
      rw [hfalse]
      rfl
    | arr vs =>
      show (if (truthyOpt ((JVal.arr vs).getF ("error"))
          && isCanonicalMsg (.arr vs)) = true then _ else _) = _
      rw [hfalse]
      rfl
    | obj fs =>
      show (if (truthyOpt ((JVal.obj fs).getF ("error"))
          && isCanonicalMsg (.obj fs)) = true then _ else _) = _
      rw [hfalse]
      rfl

set_option maxRecDepth 4096 in
/-- Witness for C8 at a parsed error variant carrying exactly the canonical
English fallback sentence. -/
theorem claim8_witness :
    identifyImageDirect ("\x7b\"error\":\"Unable to identify\",\"message\":\"The image may not contain a recognizable plant or fruit, or the quality is too low.\"\x7d")
      = (JVal.obj [("error", .str ("Unable to identify")),
          ("message", .str canonicalFallbackEn)]).setF ("message") (.str laoFallback) ∧
    ((JVal.obj [("error", .str ("Unable to identify")),
        ("message", .str canonicalFallbackEn)]).setF ("message")
        (.str laoFallback)).getF ("message") = some (.str laoFallback) ∧
    (∀ k, k ≠ "message" →
      ((JVal.obj [("error", .str ("Unable to identify")),
          ("message", .str canonicalFallbackEn)]).setF ("message")
          (.str laoFallback)).getF k
        = (JVal.obj [("error", .str ("Unable to identify")),
            ("message", .str canonicalFallbackEn)]).getF k) :=
  (claim8_fallback_rewrite
    ("\x7b\"error\":\"Unable to identify\",\"message\":\"The image may not contain a recognizable plant or fruit, or the quality is too low.\"\x7d")
    (.obj [("error", .str ("Unable to identify")),
           ("message", .str canonicalFallbackEn)]) rfl).1 ⟨rfl, rfl⟩

/-! ## Round-trip lemmas: every serialized value parses back

These lemmas feed C10: each branch of the handler answers with a body built
by the JSON.stringify model, and such a body always re-parses. -/

/-- The character lists that can follow a serialized value inside a larger
serialization: nothing, or a separator or closer. -/
def delim3 (rest : List Char) : Prop :=
  rest = [] ∨ ∃ t, rest = ',' :: t ∨ rest = ']' :: t ∨ rest = '}' :: t

theorem delim3_span {rest : List Char} (h : delim3 rest) :
    digitSpan rest = ([], rest) := by
  rcases h with rfl | ⟨t, rfl | rfl | rfl⟩ <;> rfl

theorem delim3_skip {rest : List Char} (h : delim3 rest) :
    skipSpaces rest = rest := by
  rcases h with rfl | ⟨t, rfl | rfl | rfl⟩ <;> rfl

theorem delim3_lexFrac {rest : List Char} (h : delim3 rest) :
    lexFrac rest = ([], rest) := by
  rcases h with rfl | ⟨t, rfl | rfl | rfl⟩ <;> rfl

theorem delim3_lexExp {rest : List Char} (h : delim3 rest) :
    lexExp rest = (0, rest) := by
  rcases h with rfl | ⟨t, rfl | rfl | rfl⟩ <;> rfl

theorem decCharsAux_shape :
    ∀ (f n : Nat) (acc : List Char), n < f →
      ∃ ds, decCharsAux f n acc = ds ++ acc ∧ ds ≠ [] ∧
        ∀ c ∈ ds, c.isDigit = true := by
  intro f
  induction f with
  | zero => omega
  | succ g ih =>
    intro n acc hn
    rw [decCharsAux]
    by_cases h10 : n < 10
    · rw [if_pos h10]
      refine ⟨[Char.ofNat (48 + n)], rfl, by simp, ?_⟩
      intro c hc
      rw [List.mem_singleton] at hc
      subst hc
      interval_cases n <;> decide
    · rw [if_neg h10]
      obtain ⟨ds, hds, hne, hdig⟩ := ih (n / 10) (Char.ofNat (48 + n % 10) :: acc) (by omega)
      refine ⟨ds ++ [Char.ofNat (48 + n % 10)], by rw [hds, List.append_assoc]; rfl,
        by simp [hne], ?_⟩
      intro c hc
      rw [List.mem_append] at hc
      rcases hc with hc | hc
      · exact hdig c hc
      · rw [List.mem_singleton] at hc
        subst hc
        have hm : n % 10 < 10 := Nat.mod_lt _ (by omega)
        interval_cases hmv : n % 10 <;> decide

theorem decChars_shape (n : Nat) :
    decChars n ≠ [] ∧ ∀ c ∈ decChars n, c.isDigit = true := by
  obtain ⟨ds, hds, hne, hdig⟩ := decCharsAux_shape (n + 1) n [] (by omega)
  rw [decChars, hds, List.append_nil]
  exact ⟨hne, hdig⟩

theorem digitSpan_run {ds : List Char} (hds : ∀ c ∈ ds, c.isDigit = true)
    {rest : List Char} (hrest : digitSpan rest = ([], rest)) :
    digitSpan (ds ++ rest) = (ds, rest) := by
  have h1 : rest.takeWhile Char.isDigit = [] := congrArg Prod.fst hrest
  have h2 : rest.dropWhile Char.isDigit = rest := congrArg Prod.snd hrest
  rw [digitSpan, takeWhile_append_all _ hds, dropWhile_append_all _ hds, h1, h2,
    List.append_nil]

theorem lexNumber_not_neg {c : Char} (hc : c ≠ '-') (t : List Char) :
    lexNumber (c :: t) = lexNumTail 1 (c :: t) := by
  rw [lexNumber.eq_def]
  split
  · rename_i r heq
    injection heq with h1 h2
    exact absurd h1 hc
  · rfl

theorem lexNumTail_run (sign : Int) {ds : List Char} (hne : ds ≠ [])
    (hdig : ∀ c ∈ ds, c.isDigit = true) {l2 : List Char} {ev : Int}
    {l4 : List Char}
    (hspan : digitSpan l2 = ([], l2))
    (hfrac : lexFrac l2 = ([], l2))
    (hexp : lexExp l2 = (ev, l4)) :
    ∃ n2 : JNum, lexNumTail sign (ds ++ l2) = .ok (n2, l4) := by
  obtain ⟨c, t, rfl⟩ : ∃ c t, ds = c :: t := by
    cases hcons : ds with
    | nil => exact absurd hcons hne
    | cons c t => exact ⟨c, t, rfl⟩
  refine ⟨⟨sign * (digitsVal (c :: t) : Int), ev⟩, ?_⟩
  rw [lexNumTail.eq_def, digitSpan_run hdig hspan]
  simp only [hfrac, hexp, List.append_nil, List.length_nil, Nat.cast_zero, sub_zero]

theorem exists_cons_of_ne {l : List Char} (h : l ≠ []) : ∃ c t, l = c :: t := by
  cases hc : l with
  | nil => exact absurd hc h
  | cons c t => exact ⟨c, t, rfl⟩

theorem lexExp_neg {E : List Char} (hne : E ≠ []) (hdig : ∀ c ∈ E, c.isDigit = true)
    {rest : List Char} (hr : delim3 rest) :
    lexExp ('e' :: '-' :: (E ++ rest)) = (-(digitsVal E : Int), rest) := by
  obtain ⟨c, t, rfl⟩ := exists_cons_of_ne hne
  show (match digitSpan ((c :: t) ++ rest) with
    | ([], _) => ((0 : Int), 'e' :: '-' :: (c :: t ++ rest))
    | (ds, r3) => (-(digitsVal ds : Int), r3)) = _
  rw [digitSpan_run hdig (delim3_span hr)]

theorem lexExp_pos {E : List Char} (hne : E ≠ []) (hdig : ∀ c ∈ E, c.isDigit = true)
    {rest : List Char} (hr : delim3 rest) :
    lexExp ('e' :: (E ++ rest)) = ((digitsVal E : Int), rest) := by
  obtain ⟨c, t, rfl⟩ := exists_cons_of_ne hne
  have hc : c.isDigit = true := hdig c (List.mem_cons_self c t)
  show (if c = '+' then
      (match digitSpan (t ++ rest) with
       | ([], _) => ((0 : Int), 'e' :: (c :: t ++ rest))
       | (ds, r3) => ((digitsVal ds : Int), r3))
    else if c = '-' then
      (match digitSpan (t ++ rest) with
       | ([], _) => ((0 : Int), 'e' :: (c :: t ++ rest))
       | (ds, r3) => (-(digitsVal ds : Int), r3))
    else
      (match digitSpan ((c :: t) ++ rest) with
       | ([], _) => ((0 : Int), 'e' :: (c :: t ++ rest))
       | (ds, r3) => ((digitsVal ds : Int), r3)))
    = ((digitsVal (c :: t) : Int), rest)
  rw [if_neg (ne_of_digit hc '+' (by decide)), if_neg (ne_of_digit hc '-' (by decide)),
    digitSpan_run hdig (delim3_span hr)]

theorem lexNumber_int (m : Int) {l2 : List Char} {ev : Int} {l4 : List Char}
    (hspan : digitSpan l2 = ([], l2)) (hfrac : lexFrac l2 = ([], l2))
    (hexp : lexExp l2 = (ev, l4)) :
    ∃ n2 : JNum, lexNumber (intChars m ++ l2) = .ok (n2, l4) := by
  obtain ⟨hDne, hDdig⟩ := decChars_shape m.natAbs
  by_cases hm : m < 0
  · rw [intChars, if_pos hm]
    simp only [List.cons_append, List.nil_append, List.append_assoc]
    rw [show lexNumber ('-' :: (decChars m.natAbs ++ l2))
        = lexNumTail (-1) (decChars m.natAbs ++ l2) from rfl]
    exact lexNumTail_run (-1) hDne hDdig hspan hfrac hexp
  · rw [intChars, if_neg hm, List.nil_append]
    obtain ⟨c, t, hD⟩ := exists_cons_of_ne hDne
    have hc : c.isDigit = true := hDdig c (by rw [hD]; exact List.mem_cons_self c t)
    rw [hD, List.cons_append, lexNumber_not_neg (ne_of_digit hc '-' (by decide)),
      ← List.cons_append, ← hD]
    exact lexNumTail_run 1 hDne hDdig hspan hfrac hexp

theorem lexNumber_write (n : JNum) (rest : List Char) (hr : delim3 rest) :
    ∃ n2 : JNum, lexNumber (writeNumber n ++ rest) = .ok (n2, rest) := by
  by_cases he : n.exp10 = 0
  · have hw : writeNumber n ++ rest = intChars n.mant ++ rest := by
      rw [writeNumber, if_pos he, List.append_nil]
    rw [hw]
    exact lexNumber_int n.mant (delim3_span hr) (delim3_lexFrac hr) (delim3_lexExp hr)
  · obtain ⟨hEne, hEdig⟩ := decChars_shape n.exp10.natAbs
    have hw : writeNumber n ++ rest
        = intChars n.mant ++ ('e' :: (intChars n.exp10 ++ rest)) := by
      rw [writeNumber, if_neg he]
      simp [List.append_assoc]
    obtain ⟨ev, hexp⟩ : ∃ ev : Int,
        lexExp ('e' :: (intChars n.exp10 ++ rest)) = (ev, rest) := by
      by_cases hen : n.exp10 < 0
      · rw [intChars, if_pos hen]
        simp only [List.cons_append, List.nil_append, List.append_assoc]
        exact ⟨_, lexExp_neg hEne hEdig hr⟩
      · rw [intChars, if_neg hen, List.nil_append]
        exact ⟨_, lexExp_pos hEne hEdig hr⟩
    rw [hw]
    exact lexNumber_int n.mant rfl rfl hexp

theorem hexDigitVal_hexDigitChar (d : Nat) (h : d < 16) :
    hexDigitVal (hexDigitChar d) = some d := by
  interval_cases d <;> decide

theorem lexString_escSeq (c : Char) (acc rest : List Char) :
    ∃ c2, lexString acc (escSeq c ++ rest) = lexString (c2 :: acc) rest := by
  by_cases h1 : c = '"'
  · subst h1
    rw [show escSeq '"' = ['\\', '"'] from by decide]
    exact ⟨'"', rfl⟩
  · by_cases h2 : c = '\\'
    · subst h2
      rw [show escSeq '\\' = ['\\', '\\'] from by decide]
      exact ⟨'\\', rfl⟩
    · by_cases h3 : c = '\n'
      · subst h3
        rw [show escSeq '\n' = ['\\', 'n'] from by decide]
        exact ⟨'\n', rfl⟩
      · by_cases h4 : c = '\r'
        · subst h4
          rw [show escSeq '\r' = ['\\', 'r'] from by decide]
          exact ⟨'\r', rfl⟩
        · by_cases h5 : c = '\t'
          · subst h5
            rw [show escSeq '\t' = ['\\', 't'] from by decide]
            exact ⟨'\t', rfl⟩
          · by_cases h6 : c = '\x08'
            · subst h6
              rw [show escSeq '\x08' = ['\\', 'b'] from by decide]
              exact ⟨'\x08', rfl⟩
            · by_cases h7 : c = '\x0c'
              · subst h7
                rw [show escSeq '\x0c' = ['\\', 'f'] from by decide]
                exact ⟨'\x0c', rfl⟩
              · by_cases h8 : c.toNat < 32
                · refine ⟨Char.ofNat (((0 * 16 + 0) * 16 + c.toNat / 16) * 16
                    + c.toNat % 16), ?_⟩
                  rw [escSeq, if_neg h1, if_neg h2, if_neg h3, if_neg h4, if_neg h5,
                    if_neg h6, if_neg h7, if_pos h8]
                  show lexString acc
                    ('\\' :: 'u' :: '0' :: '0' :: hexDigitChar (c.toNat / 16)
                      :: hexDigitChar (c.toNat % 16) :: rest) = _
                  rw [lexString]
                  rw [if_neg (by decide), if_pos (by decide)]
                  show (match hexDigitVal '0', hexDigitVal '0',
                      hexDigitVal (hexDigitChar (c.toNat / 16)),
                      hexDigitVal (hexDigitChar (c.toNat % 16)) with
                    | some a, some b, some cv, some d =>
                      lexString (Char.ofNat (((a * 16 + b) * 16 + cv) * 16 + d) :: acc) rest
                    | _, _, _, _ =>
                      (.error (.badEscape 'u') : Except PErr (String × List Char)))
                    = lexString (Char.ofNat (((0 * 16 + 0) * 16 + c.toNat / 16) * 16
                        + c.toNat % 16) :: acc) rest
                  rw [hexDigitVal_hexDigitChar _ (by omega),
                    hexDigitVal_hexDigitChar _ (Nat.mod_lt _ (by omega)),
                    show hexDigitVal '0' = some 0 from by decide]
                · refine ⟨c, ?_⟩
                  rw [escSeq, if_neg h1, if_neg h2, if_neg h3, if_neg h4, if_neg h5,
                    if_neg h6, if_neg h7, if_neg h8]
                  show lexString acc (c :: rest) = _
                  rw [lexString, if_neg h1, if_neg h2, if_neg (by omega)]

theorem lexString_escAll (cs : List Char) : ∀ (acc rest : List Char),
    ∃ s, lexString acc (escAll cs ++ '"' :: rest) = .ok (s, rest) := by
  induction cs with
  | nil => exact fun acc rest => ⟨String.mk acc.reverse, rfl⟩
  | cons c cs ih =>
    intro acc rest
    rw [escAll, List.append_assoc]
    obtain ⟨c2, h2⟩ := lexString_escSeq c acc (escAll cs ++ '"' :: rest)
    rw [h2]
    exact ih (c2 :: acc) rest

theorem skipSpaces_cons_false {c : Char} (r : List Char) (h : jsonWs c = false) :
    skipSpaces (c :: r) = c :: r := by
  rw [skipSpaces]
  exact dropWhile_head_false r h

theorem readValue_cons (fuel : Nat) {c : Char} (r : List Char) (h : jsonWs c = false) :
    readValue (fuel + 1) (c :: r) = readToken fuel c r := by
  rw [readValue.eq_def, skipSpaces_cons_false r h]

theorem writeString_shape (k : String) (x : List Char) :
    writeString k ++ x = '"' :: (escAll k.data ++ '"' :: x) := by
  rw [writeString, List.cons_append, List.append_assoc]
  rfl

theorem writeNumber_cons (n : JNum) :
    ∃ c t, writeNumber n = c :: t ∧ (c = '-' ∨ c.isDigit = true) := by
  obtain ⟨hDne, hDdig⟩ := decChars_shape n.mant.natAbs
  obtain ⟨c, t, hD⟩ := exists_cons_of_ne hDne
  by_cases hm : n.mant < 0
  · refine ⟨'-', decChars n.mant.natAbs ++
      (if n.exp10 = 0 then [] else 'e' :: intChars n.exp10), ?_, Or.inl rfl⟩
    rw [writeNumber, intChars, if_pos hm]
    simp [List.cons_append, List.nil_append]
  · refine ⟨c, t ++ (if n.exp10 = 0 then [] else 'e' :: intChars n.exp10),
      ?_, Or.inr (hDdig c (by rw [hD]; exact List.mem_cons_self c t))⟩
    rw [writeNumber, intChars, if_neg hm, List.nil_append, hD, List.cons_append]

theorem writeValue_cons (v : JVal) :
    ∃ c t, writeValue v = c :: t ∧ jsonWs c = false ∧ c ≠ ']' ∧ c ≠ '}' := by
  cases v with
  | null => exact ⟨'n', _, rfl, rfl, by decide⟩
  | bool b =>
    cases b
    · exact ⟨'f', _, rfl, rfl, by decide⟩
    · exact ⟨'t', _, rfl, rfl, by decide⟩
  | num n =>
    obtain ⟨c, t, hn, hc⟩ := writeNumber_cons n
    refine ⟨c, t, hn, ?_, ?_, ?_⟩
    · rcases hc with rfl | hd
      · decide
      · exact jsonWs_of_digit hd
    · rcases hc with rfl | hd
      · decide
      · exact ne_of_digit hd ']' (by decide)
    · rcases hc with rfl | hd
      · decide
      · exact ne_of_digit hd '}' (by decide)
  | str s => exact ⟨'"', _, rfl, rfl, by decide⟩
  | arr vs => exact ⟨'[', _, rfl, rfl, by decide⟩
  | obj fs => exact ⟨'{', _, rfl, rfl, by decide⟩

theorem writeValue_pos (v : JVal) : 0 < (writeValue v).length := by
  obtain ⟨c, t, hv, _⟩ := writeValue_cons v
  rw [hv]
  simp

theorem writeItems_single (x : JVal) : writeItems [x] = writeValue x := rfl

theorem writeItems_cons2 (x y : JVal) (ys : List JVal) :
    writeItems (x :: y :: ys) = writeValue x ++ ',' :: writeItems (y :: ys) := rfl

theorem writeFields_single (k : String) (v : JVal) :
    writeFields [(k, v)] = writeString k ++ ':' :: writeValue v := rfl

theorem writeFields_cons2 (k : String) (v : JVal) (g : String × JVal)
    (gs : List (String × JVal)) :
    writeFields ((k, v) :: g :: gs)
      = (writeString k ++ ':' :: writeValue v) ++ ',' :: writeFields (g :: gs) := rfl

theorem writeItems_pos (x : JVal) (xs : List JVal) :
    0 < (writeItems (x :: xs)).length := by
  cases xs with
  | nil =>
    rw [writeItems_single]
    exact writeValue_pos x
  | cons y ys =>
    rw [writeItems_cons2]
    simp

theorem writeString_len (k : String) :
    (writeString k).length = 2 + (escAll k.data).length := by
  rw [writeString]
  simp
  omega

theorem writeFields_pos (f : String × JVal) (fs : List (String × JVal)) :
    0 < (writeFields (f :: fs)).length := by
  obtain ⟨k, v⟩ := f
  cases fs with
  | nil =>
    rw [writeFields_single]
    simp
  | cons g gs =>
    rw [writeFields_cons2]
    simp

mutual

theorem readValue_write : ∀ (fuel : Nat) (v : JVal) (rest : List Char),
    delim3 rest → 3 * (writeValue v).length ≤ fuel →
    ∃ w, readValue fuel (writeValue v ++ rest) = .ok (w, rest)
  | 0, v, rest, hr, hlen => by
    have := writeValue_pos v
    omega
  | 1, v, rest, hr, hlen => by
    have := writeValue_pos v
    omega
  | 2, v, rest, hr, hlen => by
    have := writeValue_pos v
    omega
  | fuel + 3, v, rest, hr, hlen => by
    cases v with
    | null => exact ⟨.null, rfl⟩
    | bool b =>
      cases b with
      | true => exact ⟨.bool true, rfl⟩
      | false => exact ⟨.bool false, rfl⟩
    | num n =>
      obtain ⟨c, t, hn, hc⟩ := writeNumber_cons n
      obtain ⟨n2, hlex⟩ := lexNumber_write n rest hr
      have hjw : jsonWs c = false := by
        rcases hc with rfl | hd
        · decide
        · exact jsonWs_of_digit hd
      have h1 : c ≠ '{' := by
        rcases hc with rfl | hd
        · decide
        · exact ne_of_digit hd _ (by decide)
      have h2 : c ≠ '[' := by
        rcases hc with rfl | hd
        · decide
        · exact ne_of_digit hd _ (by decide)
      have h3 : c ≠ '"' := by
        rcases hc with rfl | hd
        · decide
        · exact ne_of_digit hd _ (by decide)
      have h4 : c ≠ 't' := by
        rcases hc with rfl | hd
        · decide
        · exact ne_of_digit hd _ (by decide)
      have h5 : c ≠ 'f' := by
        rcases hc with rfl | hd
        · decide
        · exact ne_of_digit hd _ (by decide)
      have h6 : c ≠ 'n' := by
        rcases hc with rfl | hd
        · decide
        · exact ne_of_digit hd _ (by decide)
      have hform : writeValue (.num n) ++ rest = c :: (t ++ rest) := by
        show writeNumber n ++ rest = _
        rw [hn, List.cons_append]
      refine ⟨.num n2, ?_⟩
      rw [hform, readValue_cons _ _ hjw, readToken.eq_def]
      show (if c = '{' then readObjBody (fuel + 1) (skipSpaces (t ++ rest))
        else if c = '[' then readArrBody (fuel + 1) (skipSpaces (t ++ rest))
        else if c = '"' then strResult (lexString [] (t ++ rest))
        else if c = 't' then readTrue c (t ++ rest)
        else if c = 'f' then readFalse c (t ++ rest)
        else if c = 'n' then readNull c (t ++ rest)
        else if c = '-' ∨ c.isDigit then numResult (lexNumber (c :: (t ++ rest)))
        else .error (.unexpected c)) = .ok (.num n2, rest)
      rw [if_neg h1, if_neg h2, if_neg h3, if_neg h4, if_neg h5, if_neg h6,
        if_pos hc, ← List.cons_append, ← hn, hlex]
      rfl
    | str s =>
      obtain ⟨s2, hls⟩ := lexString_escAll s.data [] rest
      refine ⟨.str s2, ?_⟩
      rw [show writeValue (.str s) ++ rest = '"' :: (escAll s.data ++ '"' :: rest)
          from writeString_shape s rest]
      rw [readValue_cons _ _ (by decide)]
      show strResult (lexString [] (escAll s.data ++ '"' :: rest)) = .ok (.str s2, rest)
      rw [hls]
      rfl
    | arr items =>
      cases items with
      | nil => exact ⟨.arr [], rfl⟩
      | cons x xs =>
        have hlen2 : (writeValue (.arr (x :: xs))).length
            = 2 + (writeItems (x :: xs)).length := by
          show ('[' :: (writeItems (x :: xs) ++ [']'])).length = _
          simp
          omega
        obtain ⟨tail, htail, _⟩ : ∃ tail, writeItems (x :: xs) = writeValue x ++ tail ∧
            (tail = [] ∨ ∃ t2, tail = ',' :: t2) := by
          cases xs with
          | nil => exact ⟨[], by rw [writeItems_single, List.append_nil], Or.inl rfl⟩
          | cons y ys => exact ⟨',' :: writeItems (y :: ys), writeItems_cons2 x y ys,
              Or.inr ⟨_, rfl⟩⟩
        obtain ⟨c, t, hx, hjw, hne1, hne2⟩ := writeValue_cons x
        obtain ⟨ws, hws⟩ := readItems_write fuel (x :: xs) rest (by simp) (by omega)
        refine ⟨.arr ws, ?_⟩
        have hform : writeValue (.arr (x :: xs)) ++ rest
            = '[' :: (writeItems (x :: xs) ++ ']' :: rest) := by
          show ('[' :: (writeItems (x :: xs) ++ [']'])) ++ rest = _
          rw [List.cons_append, List.append_assoc]
          rfl
        have hcform : writeItems (x :: xs) ++ ']' :: rest
            = c :: (t ++ (tail ++ ']' :: rest)) := by
          rw [htail, hx]
          simp [List.append_assoc]
        rw [hform, readValue_cons _ _ (by decide)]
        show readArrBody (fuel + 1)
          (skipSpaces (writeItems (x :: xs) ++ ']' :: rest)) = .ok (.arr ws, rest)
        rw [hcform, skipSpaces_cons_false _ hjw]
        show (match c :: (t ++ (tail ++ ']' :: rest)) with
          | ']' :: r2 => (Except.ok (JVal.arr [], r2) : Except PErr (JVal × List Char))
          | r1 =>
            match readItems fuel r1 with
            | .ok (vs2, r2) => .ok (.arr vs2, r2)
            | .error e => .error e) = .ok (.arr ws, rest)
        split
        · rename_i r2 heq
          injection heq with hh _
          exact absurd hh hne1
        · rw [show c :: (t ++ (tail ++ ']' :: rest))
              = writeItems (x :: xs) ++ ']' :: rest from hcform.symm, hws]
    | obj fields =>
      cases fields with
      | nil => exact ⟨.obj [], rfl⟩
      | cons f fs =>
        obtain ⟨k, v⟩ := f
        have hlen2 : (writeValue (.obj ((k, v) :: fs))).length
            = 2 + (writeFields ((k, v) :: fs)).length := by
          show ('{' :: (writeFields ((k, v) :: fs) ++ ['}'])).length = _
          simp
          omega
        obtain ⟨ps, hps⟩ := readFields_write fuel ((k, v) :: fs) rest (by simp) (by omega)
        refine ⟨.obj (collapseFields ps), ?_⟩
        have hform : writeValue (.obj ((k, v) :: fs)) ++ rest
            = '{' :: (writeFields ((k, v) :: fs) ++ '}' :: rest) := by
          show ('{' :: (writeFields ((k, v) :: fs) ++ ['}'])) ++ rest = _
          rw [List.cons_append, List.append_assoc]
          rfl
        obtain ⟨t2, ht2⟩ : ∃ t2, writeFields ((k, v) :: fs) ++ '}' :: rest = '"' :: t2 := by
          cases fs with
          | nil =>
            rw [writeFields_single, List.append_assoc, writeString_shape]
            exact ⟨_, rfl⟩
          | cons g gs =>
            rw [writeFields_cons2, List.append_assoc, List.append_assoc, writeString_shape]
            exact ⟨_, rfl⟩
        rw [hform, readValue_cons _ _ (by decide)]
        show readObjBody (fuel + 1)
          (skipSpaces (writeFields ((k, v) :: fs) ++ '}' :: rest))
          = .ok (.obj (collapseFields ps), rest)
        rw [ht2, skipSpaces_cons_false _ (by decide)]
        show (match readFields fuel ('"' :: t2) with
          | .ok (ps2, r2) =>
            (Except.ok (JVal.obj (collapseFields ps2), r2) : Except PErr (JVal × List Char))
          | .error e => .error e) = .ok (.obj (collapseFields ps), rest)
        rw [← ht2, hps]

theorem readItems_write : ∀ (fuel : Nat) (vs : List JVal) (rest : List Char),
    vs ≠ [] → 3 * (writeItems vs).length + 2 ≤ fuel →
    ∃ ws, readItems fuel (writeItems vs ++ ']' :: rest) = .ok (ws, rest)
  | 0, vs, rest, hne, hlen => by omega
  | 1, vs, rest, hne, hlen => by omega
  | fuel + 2, vs, rest, hne, hlen => by
    cases vs with
    | nil => exact absurd rfl hne
    | cons x xs =>
      cases xs with
      | nil =>
        rw [writeItems_single] at hlen ⊢
        obtain ⟨w, hw⟩ := readValue_write (fuel + 1) x (']' :: rest)
          (Or.inr ⟨rest, Or.inr (Or.inl rfl)⟩) (by omega)
        refine ⟨[w], ?_⟩
        show (match readValue (fuel + 1) (writeValue x ++ ']' :: rest) with
          | .error e => (Except.error e : Except PErr (List JVal × List Char))
          | .ok (v, r) => readItemSep (fuel + 1) v r) = .ok ([w], rest)
        rw [hw]
        rfl
      | cons y ys =>
        have hI := writeItems_cons2 x y ys
        have hlen2 : (writeItems (x :: y :: ys)).length
            = (writeValue x).length + 1 + (writeItems (y :: ys)).length := by
          rw [hI]
          simp
          omega
        have hpos := writeValue_pos x
        obtain ⟨w, hw⟩ := readValue_write (fuel + 1) x
          (',' :: (writeItems (y :: ys) ++ ']' :: rest))
          (Or.inr ⟨_, Or.inl rfl⟩) (by omega)
        obtain ⟨ws, hws⟩ := readItems_write fuel (y :: ys) rest (by simp) (by omega)
        refine ⟨w :: ws, ?_⟩
        rw [hI]
        rw [show (writeValue x ++ ',' :: writeItems (y :: ys)) ++ ']' :: rest
            = writeValue x ++ (',' :: (writeItems (y :: ys) ++ ']' :: rest))
            from by simp [List.append_assoc]]
        show (match readValue (fuel + 1)
            (writeValue x ++ (',' :: (writeItems (y :: ys) ++ ']' :: rest))) with
          | .error e => (Except.error e : Except PErr (List JVal × List Char))
          | .ok (v, r) => readItemSep (fuel + 1) v r) = .ok (w :: ws, rest)
        rw [hw]
        show (match readItems fuel (writeItems (y :: ys) ++ ']' :: rest) with
          | .ok (vs2, r3) => (Except.ok (w :: vs2, r3) : Except PErr (List JVal × List Char))
          | .error e => .error e) = .ok (w :: ws, rest)
        rw [hws]

theorem readFields_write : ∀ (fuel : Nat) (fs : List (String × JVal)) (rest : List Char),
    fs ≠ [] → 3 * (writeFields fs).length + 2 ≤ fuel →
    ∃ ps, readFields fuel (writeFields fs ++ '}' :: rest) = .ok (ps, rest)
  | 0, fs, rest, hne, hlen => by omega
  | 1, fs, rest, hne, hlen => by omega
  | 2, fs, rest, hne, hlen => by
    cases fs with
    | nil => exact absurd rfl hne
    | cons f fs2 =>
      have := writeFields_pos f fs2
      omega
  | fuel + 3, fs, rest, hne, hlen => by
    cases fs with
    | nil => exact absurd rfl hne
    | cons f fs2 =>
      obtain ⟨k, v⟩ := f
      cases fs2 with
      | nil =>
        have hW : writeFields [(k, v)] ++ '}' :: rest
            = '"' :: (escAll k.data ++ '"' :: (':' :: (writeValue v ++ '}' :: rest))) := by
          rw [writeFields_single, List.append_assoc, writeString_shape]
          rfl
        have hlen2 : (writeFields [(k, v)]).length
            = (writeString k).length + 1 + (writeValue v).length := by
          rw [writeFields_single]
          simp
          omega
        have hks := writeString_len k
        obtain ⟨k2, hk⟩ := lexString_escAll k.data []
          (':' :: (writeValue v ++ '}' :: rest))
        obtain ⟨w, hv⟩ := readValue_write fuel v ('}' :: rest)
          (Or.inr ⟨rest, Or.inr (Or.inr rfl)⟩) (by omega)
        refine ⟨[(k2, w)], ?_⟩
        rw [hW]
        show readFieldKey (fuel + 2)
          (escAll k.data ++ '"' :: (':' :: (writeValue v ++ '}' :: rest)))
          = .ok ([(k2, w)], rest)
        show (match lexString []
            (escAll k.data ++ '"' :: (':' :: (writeValue v ++ '}' :: rest))) with
          | .error e =>
            (Except.error e : Except PErr (List (String × JVal) × List Char))
          | .ok (k3, r1) =>
            match skipSpaces r1 with
            | ':' :: r2 => readFieldVal (fuel + 1) k3 r2
            | [] => .error .endOfInput
            | c :: _ => .error (.unexpected c)) = .ok ([(k2, w)], rest)
        rw [hk]
        show readFieldVal (fuel + 1) k2 (writeValue v ++ '}' :: rest)
          = .ok ([(k2, w)], rest)
        show (match readValue fuel (writeValue v ++ '}' :: rest) with
          | .error e =>
            (Except.error e : Except PErr (List (String × JVal) × List Char))
          | .ok (v2, r3) =>
            match skipSpaces r3 with
            | ',' :: r4 =>
              (match readFields fuel r4 with
               | .ok (ps, r5) => .ok ((k2, v2) :: ps, r5)
               | .error e => .error e)
            | '}' :: r4 => .ok ([(k2, v2)], r4)
            | [] => .error .endOfInput
            | c :: _ => .error (.unexpected c)) = .ok ([(k2, w)], rest)
        rw [hv]
        rfl
      | cons g gs =>
        have hW : writeFields ((k, v) :: g :: gs) ++ '}' :: rest
            = '"' :: (escAll k.data ++ '"' :: (':' :: (writeValue v ++
                ',' :: (writeFields (g :: gs) ++ '}' :: rest)))) := by
          rw [writeFields_cons2, List.append_assoc, List.append_assoc, writeString_shape]
          simp [List.append_assoc]
        have hlen2 : (writeFields ((k, v) :: g :: gs)).length
            = (writeString k).length + 1 + (writeValue v).length + 1
              + (writeFields (g :: gs)).length := by
          rw [writeFields_cons2]
          simp
          omega
        have hks := writeString_len k
        have hpos := writeValue_pos v
        obtain ⟨k2, hk⟩ := lexString_escAll k.data []
          (':' :: (writeValue v ++ ',' :: (writeFields (g :: gs) ++ '}' :: rest)))
        obtain ⟨w, hv⟩ := readValue_write fuel v
          (',' :: (writeFields (g :: gs) ++ '}' :: rest))
          (Or.inr ⟨_, Or.inl rfl⟩) (by omega)
        obtain ⟨ps, hps⟩ := readFields_write fuel (g :: gs) rest (by simp) (by omega)
        refine ⟨(k2, w) :: ps, ?_⟩
        rw [hW]
        show readFieldKey (fuel + 2)
          (escAll k.data ++ '"' :: (':' :: (writeValue v ++
            ',' :: (writeFields (g :: gs) ++ '}' :: rest))))
          = .ok ((k2, w) :: ps, rest)
        show (match lexString []
            (escAll k.data ++ '"' :: (':' :: (writeValue v ++
              ',' :: (writeFields (g :: gs) ++ '}' :: rest)))) with
          | .error e =>
            (Except.error e : Except PErr (List (String × JVal) × List Char))
          | .ok (k3, r1) =>
            match skipSpaces r1 with
            | ':' :: r2 => readFieldVal (fuel + 1) k3 r2
            | [] => .error .endOfInput
            | c :: _ => .error (.unexpected c)) = .ok ((k2, w) :: ps, rest)
        rw [hk]
        show readFieldVal (fuel + 1) k2
          (writeValue v ++ ',' :: (writeFields (g :: gs) ++ '}' :: rest))
          = .ok ((k2, w) :: ps, rest)
        show (match readValue fuel
            (writeValue v ++ ',' :: (writeFields (g :: gs) ++ '}' :: rest)) with
          | .error e =>
            (Except.error e : Except PErr (List (String × JVal) × List Char))
          | .ok (v2, r3) =>
            match skipSpaces r3 with
            | ',' :: r4 =>
              (match readFields fuel r4 with
               | .ok (ps2, r5) => .ok ((k2, v2) :: ps2, r5)
               | .error e => .error e)
            | '}' :: r4 => .ok ([(k2, v2)], r4)
            | [] => .error .endOfInput
            | c :: _ => .error (.unexpected c)) = .ok ((k2, w) :: ps, rest)
        rw [hv]
        show (match readFields fuel (writeFields (g :: gs) ++ '}' :: rest) with
          | .ok (ps2, r5) =>
            (Except.ok ((k2, w) :: ps2, r5)
              : Except PErr (List (String × JVal) × List Char))
          | .error e => .error e) = .ok ((k2, w) :: ps, rest)
        rw [hps]

end

/-- Every serialized value parses back: JSON.parse applied to the output of
JSON.stringify succeeds. -/
theorem jsonParse_stringify (v : JVal) :
    ∃ w, jsonParse (jsonStringify v).data = .ok w := by
  obtain ⟨w, hw⟩ := readValue_write (4 * (writeValue v).length + 4) v []
    (Or.inl rfl) (by omega)
  rw [List.append_nil] at hw
  refine ⟨w, ?_⟩
  show jsonParse (writeValue v) = .ok w
  unfold jsonParse
  rw [hw]
  rfl

/-- C10: for every inbound event (any method, any body, credential present
or absent) and every model outcome, the handler returns a response whose
status code is 200, 400, 405 or 500, whose Content-Type is
application/json, whose body parses as JSON, and whose body on every
non-200 status is the serialization of a record with a non-empty error
field. -/
theorem claim10 (apiKey : Option String) (event : HandlerEvent)
    (outcome : ModelOutcome) :
    ((handler apiKey event outcome).statusCode = 200 ∨
      (handler apiKey event outcome).statusCode = 400 ∨
      (handler apiKey event outcome).statusCode = 405 ∨
      (handler apiKey event outcome).statusCode = 500) ∧
    (handler apiKey event outcome).contentType = appJson ∧
    (∃ j, jsonParse (handler apiKey event outcome).body.data = .ok j) ∧
    ((handler apiKey event outcome).statusCode ≠ 200 →
      ∃ code msg, (handler apiKey event outcome).body = errBody code msg ∧
        code ≠ "") := by
  unfold handler
  split
  · exact ⟨Or.inr (Or.inr (Or.inl rfl)), rfl,
      jsonParse_stringify (.obj [("error", .str ("Method Not Allowed")),
        ("message", .str ("Only POST requests are accepted."))]),
      fun _ => ⟨_, _, rfl, by decide⟩⟩
  · split
    · exact ⟨Or.inr (Or.inr (Or.inr rfl)), rfl,
        jsonParse_stringify (.obj [("error", .str ("Configuration Error")),
          ("message", .str ("API Key is not configured on the server."))]),
        fun _ => ⟨_, _, rfl, by decide⟩⟩
    · split
      · rename_i m _
        exact ⟨Or.inr (Or.inl rfl), rfl,
          jsonParse_stringify (.obj [("error", .str ("Bad Request")),
            ("message", .str m)]),
          fun _ => ⟨_, _, rfl, by decide⟩⟩
      · cases outcome with
        | threw m =>
          exact ⟨Or.inr (Or.inr (Or.inr rfl)), rfl,
            jsonParse_stringify (.obj [("error", .str ("AI Service Error")),
              ("message", .str (m.getD aiGenericMsg))]),
            fun _ => ⟨_, _, rfl, by decide⟩⟩
        | replied t =>
          cases t with
          | none =>
            exact ⟨Or.inr (Or.inr (Or.inr rfl)), rfl,
              jsonParse_stringify (.obj [("error", .str ("AI Service Error")),
                ("message", .str notStringMsg)]),
              fun _ => ⟨_, _, rfl, by decide⟩⟩
          | some text =>
            cases hp : jsonParse (extractJson text.data) with
            | ok v =>
              show ((normalizeParsed (jsonParse (extractJson text.data))).statusCode = 200 ∨
                  (normalizeParsed (jsonParse (extractJson text.data))).statusCode = 400 ∨
                  (normalizeParsed (jsonParse (extractJson text.data))).statusCode = 405 ∨
                  (normalizeParsed (jsonParse (extractJson text.data))).statusCode = 500) ∧
                (normalizeParsed (jsonParse (extractJson text.data))).contentType = appJson ∧
                (∃ j, jsonParse
                  (normalizeParsed (jsonParse (extractJson text.data))).body.data = .ok j) ∧
                ((normalizeParsed (jsonParse (extractJson text.data))).statusCode ≠ 200 →
                  ∃ code msg,
                    (normalizeParsed (jsonParse (extractJson text.data))).body
                      = errBody code msg ∧ code ≠ "")
              rw [hp]
              exact ⟨Or.inl rfl, rfl, jsonParse_stringify v, fun h => absurd rfl h⟩
            | error e =>
              show ((normalizeParsed (jsonParse (extractJson text.data))).statusCode = 200 ∨
                  (normalizeParsed (jsonParse (extractJson text.data))).statusCode = 400 ∨
                  (normalizeParsed (jsonParse (extractJson text.data))).statusCode = 405 ∨
                  (normalizeParsed (jsonParse (extractJson text.data))).statusCode = 500) ∧
                (normalizeParsed (jsonParse (extractJson text.data))).contentType = appJson ∧
                (∃ j, jsonParse
                  (normalizeParsed (jsonParse (extractJson text.data))).body.data = .ok j) ∧
                ((normalizeParsed (jsonParse (extractJson text.data))).statusCode ≠ 200 →
                  ∃ code msg,
                    (normalizeParsed (jsonParse (extractJson text.data))).body
                      = errBody code msg ∧ code ≠ "")
              rw [hp]
              exact ⟨Or.inr (Or.inr (Or.inr rfl)), rfl,
                jsonParse_stringify (.obj [("error", .str ("AI Service Error")),
                  ("message", .str (PErr.render e))]),
                fun _ => ⟨_, _, rfl, by decide⟩⟩

/-- Witness for C10 at a concrete GET event: the 405 arm with its
Method Not Allowed error body. -/
theorem claim10_witness :
    (handler (some "k") ⟨"GET", none⟩ (.threw none)).statusCode ≠ 200 ∧
    ∃ code msg,
      (handler (some "k") ⟨"GET", none⟩ (.threw none)).body = errBody code msg ∧
        code ≠ "" :=
  ⟨by decide,
    (claim10 (some "k") ⟨"GET", none⟩ (.threw none)).2.2.2 (by decide)⟩
